import Mathlib

/-!
Verification of the dbpia-mcp query execution pipeline.

We give a shallow embedding of the pipeline's components — the JSON-like
dynamic values produced by the XML parser, the response normalizer with its
stable-identity derivation, the query cache (key canonicalization, expiry
read, upsert write), the article upsert, the query orchestrator `runQuery`,
the write `Mutex`, the sliding-window rate limiter, and the transport retry
loop of `fetchDbpiaXml` — and prove the specified properties about them.
-/

namespace Dbpia

/-- A parsed JSON-like dynamic value, as produced by the XML parser and
passed around untyped in the source.  JS `undefined` is modelled as
`Option.none` at use sites, never as a `Json` value; JS `null` is `Json.null`.
Numbers are modelled as integers (the values flowing through the pipeline —
counts, years, status codes — are integral). -/
inductive Json where
  | null : Json
  | bool : Bool → Json
  | num : Int → Json
  | str : String → Json
  | arr : List Json → Json
  | obj : List (String × Json) → Json
  deriving Repr, Inhabited

mutual

def Json.dec : (a b : Json) → Decidable (a = b)
  | .null, .null => isTrue rfl
  | .bool x, .bool y =>
    match decEq x y with
    | isTrue h => isTrue (by rw [h])
    | isFalse h => isFalse (fun he => by cases he; exact h rfl)
  | .num x, .num y =>
    match decEq x y with
    | isTrue h => isTrue (by rw [h])
    | isFalse h => isFalse (fun he => by cases he; exact h rfl)
  | .str x, .str y =>
    match decEq x y with
    | isTrue h => isTrue (by rw [h])
    | isFalse h => isFalse (fun he => by cases he; exact h rfl)
  | .arr x, .arr y =>
    match Json.decList x y with
    | isTrue h => isTrue (by rw [h])
    | isFalse h => isFalse (fun he => by cases he; exact h rfl)
  | .obj x, .obj y =>
    match Json.decFields x y with
    | isTrue h => isTrue (by rw [h])
    | isFalse h => isFalse (fun he => by cases he; exact h rfl)
  | .null, .bool _ => isFalse (fun h => Json.noConfusion h)
  | .null, .num _ => isFalse (fun h => Json.noConfusion h)
  | .null, .str _ => isFalse (fun h => Json.noConfusion h)
  | .null, .arr _ => isFalse (fun h => Json.noConfusion h)
  | .null, .obj _ => isFalse (fun h => Json.noConfusion h)
  | .bool _, .null => isFalse (fun h => Json.noConfusion h)
  | .bool _, .num _ => isFalse (fun h => Json.noConfusion h)
  | .bool _, .str _ => isFalse (fun h => Json.noConfusion h)
  | .bool _, .arr _ => isFalse (fun h => Json.noConfusion h)
  | .bool _, .obj _ => isFalse (fun h => Json.noConfusion h)
  | .num _, .null => isFalse (fun h => Json.noConfusion h)
  | .num _, .bool _ => isFalse (fun h => Json.noConfusion h)
  | .num _, .str _ => isFalse (fun h => Json.noConfusion h)
  | .num _, .arr _ => isFalse (fun h => Json.noConfusion h)
  | .num _, .obj _ => isFalse (fun h => Json.noConfusion h)
  | .str _, .null => isFalse (fun h => Json.noConfusion h)
  | .str _, .bool _ => isFalse (fun h => Json.noConfusion h)
  | .str _, .num _ => isFalse (fun h => Json.noConfusion h)
  | .str _, .arr _ => isFalse (fun h => Json.noConfusion h)
  | .str _, .obj _ => isFalse (fun h => Json.noConfusion h)
  | .arr _, .null => isFalse (fun h => Json.noConfusion h)
  | .arr _, .bool _ => isFalse (fun h => Json.noConfusion h)
  | .arr _, .num _ => isFalse (fun h => Json.noConfusion h)
  | .arr _, .str _ => isFalse (fun h => Json.noConfusion h)
  | .arr _, .obj _ => isFalse (fun h => Json.noConfusion h)
  | .obj _, .null => isFalse (fun h => Json.noConfusion h)
  | .obj _, .bool _ => isFalse (fun h => Json.noConfusion h)
  | .obj _, .num _ => isFalse (fun h => Json.noConfusion h)
  | .obj _, .str _ => isFalse (fun h => Json.noConfusion h)
  | .obj _, .arr _ => isFalse (fun h => Json.noConfusion h)

def Json.decList : (a b : List Json) → Decidable (a = b)
  | [], [] => isTrue rfl
  | [], _ :: _ => isFalse (fun h => List.noConfusion h)
  | _ :: _, [] => isFalse (fun h => List.noConfusion h)
  | a :: as, b :: bs =>
    match Json.dec a b, Json.decList as bs with
    | isTrue h1, isTrue h2 => isTrue (by rw [h1, h2])
    | isFalse h1, _ => isFalse (fun h => by cases h; exact h1 rfl)
    | _, isFalse h2 => isFalse (fun h => by cases h; exact h2 rfl)

def Json.decFields : (a b : List (String × Json)) → Decidable (a = b)
  | [], [] => isTrue rfl
  | [], _ :: _ => isFalse (fun h => List.noConfusion h)
  | _ :: _, [] => isFalse (fun h => List.noConfusion h)
  | (k1, v1) :: as, (k2, v2) :: bs =>
    match decEq k1 k2, Json.dec v1 v2, Json.decFields as bs with
    | isTrue h1, isTrue h2, isTrue h3 => isTrue (by rw [h1, h2, h3])
    | isFalse h1, _, _ => isFalse (fun h => by cases h; exact h1 rfl)
    | _, isFalse h2, _ => isFalse (fun h => by cases h; exact h2 rfl)
    | _, _, isFalse h3 => isFalse (fun h => by cases h; exact h3 rfl)

end

instance : DecidableEq Json := Json.dec

/-! ### JavaScript dynamic-value semantics

The source passes parser output around untyped; these helpers model the
JS coercions it relies on: truthiness, `typeof`, property access (an access
on a non-object yields `undefined`, modelled as `none`), template/`String()`
stringification and `Array.prototype.join`. -/

/-- JS truthiness of a JSON value (`NaN` does not arise in the model). -/
def Json.truthy : Json → Bool
  | .null => false
  | .bool b => b
  | .num n => decide (n ≠ 0)
  | .str s => decide (s ≠ "")
  | .arr _ => true
  | .obj _ => true

/-- JS `typeof`; note `typeof null` and `typeof []` are `"object"`. -/
def Json.typeofStr : Json → String
  | .null => "object"
  | .bool _ => "boolean"
  | .num _ => "number"
  | .str _ => "string"
  | .arr _ => "object"
  | .obj _ => "object"

/-- Property read `v[k]`: a lookup on an object, `undefined` (`none`)
otherwise.  (A bare read on `null` throws in JS; no settled claim exercises
that path, and we model it as `undefined` like the `?.` form used almost
everywhere in the source.) -/
def Json.jGet : Json → String → Option Json
  | .obj kvs, k => kvs.lookup k
  | _, _ => none

/-- Optional-chained read `v?.k` on a possibly-`undefined` value. -/
def jsGet (j : Option Json) (k : String) : Option Json :=
  j.bind (fun v => v.jGet k)

/-- Truthiness of a possibly-`undefined` value. -/
def truthyO : Option Json → Bool
  | some v => v.truthy
  | none => false

mutual

/-- JS `String(v)` / template-literal stringification. -/
def Json.jsToString : Json → String
  | .null => "null"
  | .bool b => if b then "true" else "false"
  | .num n => toString n
  | .str s => s
  | .arr l => Json.jsJoinComma l
  | .obj _ => "[object Object]"

/-- `Array.prototype.join(',')` (also array `toString`): elements are
stringified, except `null`, which joins as the empty string. -/
def Json.jsJoinComma : List Json → String
  | [] => ""
  | [.null] => ""
  | [j] => Json.jsToString j
  | .null :: rest => "," ++ Json.jsJoinComma rest
  | j :: rest => Json.jsToString j ++ "," ++ Json.jsJoinComma rest

end

/-- Truthiness of `v.length` as used by the author filter
`(name) => name.length > 0` — strings and arrays have a length, an object
only via an explicit `length` member, numbers and booleans yield
`undefined` (falsy). -/
def Json.lengthTruthy : Json → Bool
  | .str s => decide (s ≠ "")
  | .arr l => decide (l ≠ [])
  | .obj kvs => truthyO (kvs.lookup "length")
  | _ => false

/-- One hex digit. -/
def hexDigit (n : Nat) : Char :=
  if n < 10 then Char.ofNat (48 + n) else Char.ofNat (87 + n)

/-- Fixed-width lowercase hex rendering of `n` with `w` digits. -/
def hexNat (w : Nat) (n : Nat) : String :=
  String.mk ((List.range w).map (fun i => hexDigit (n / 16 ^ (w - 1 - i) % 16)))

/-- JSON string escaping as performed by `JSON.stringify`. -/
def escapeJsonChar (c : Char) : String :=
  if c = '"' then "\\\""
  else if c = '\\' then "\\\\"
  else if c = '\n' then "\\n"
  else if c = '\r' then "\\r"
  else if c = '\t' then "\\t"
  else if c.toNat < 32 then "\\u" ++ hexNat 4 c.toNat
  else String.singleton c

def escapeJsonString (s : String) : String :=
  "\"" ++ String.join (s.data.map escapeJsonChar) ++ "\""

mutual

/-- `JSON.stringify` over parsed JSON values.  (`undefined` never occurs
inside a `Json` value, so the undefined-dropping of `JSON.stringify`
happens at the typed encoding layer, `encodeResult` below.) -/
def Json.stringify : Json → String
  | .null => "null"
  | .bool b => if b then "true" else "false"
  | .num n => toString n
  | .str s => escapeJsonString s
  | .arr l => "[" ++ Json.stringifyList l ++ "]"
  | .obj kvs => "\x7b" ++ Json.stringifyFields kvs ++ "\x7d"

def Json.stringifyList : List Json → String
  | [] => ""
  | [j] => Json.stringify j
  | j :: rest => Json.stringify j ++ "," ++ Json.stringifyList rest

def Json.stringifyFields : List (String × Json) → String
  | [] => ""
  | [(k, v)] => escapeJsonString k ++ ":" ++ Json.stringify v
  | (k, v) :: rest =>
    escapeJsonString k ++ ":" ++ Json.stringify v ++ "," ++ Json.stringifyFields rest

end

/-! ### SHA-256

Model of node's `createHash('sha256').update(seed).digest('hex')` (FIPS
180-4) over the UTF-8 bytes of the input string.  The theorems below use it
only through congruence, never by evaluating it. -/

/- The round constants and initial hash words of FIPS 180-4, written in
decimal. -/
def sha256K : List UInt32 :=
  [1116352408, 1899447441, 3049323471, 3921009573, 961987163,
   1508970993, 2453635748, 2870763221, 3624381080, 310598401,
   607225278, 1426881987, 1925078388, 2162078206, 2614888103,
   3248222580, 3835390401, 4022224774, 264347078, 604807628,
   770255983, 1249150122, 1555081692, 1996064986, 2554220882,
   2821834349, 2952996808, 3210313671, 3336571891, 3584528711,
   113926993, 338241895, 666307205, 773529912, 1294757372,
   1396182291, 1695183700, 1986661051, 2177026350, 2456956037,
   2730485921, 2820302411, 3259730800, 3345764771, 3516065817,
   3600352804, 4094571909, 275423344, 430227734, 506948616,
   659060556, 883997877, 958139571, 1322822218, 1537002063,
   1747873779, 1955562222, 2024104815, 2227730452, 2361852424,
   2428436474, 2756734187, 3204031479, 3329325298]

def sha256H0 : List UInt32 :=
  [1779033703, 3144134277, 1013904242, 2773480762,
   1359893119, 2600822924, 528734635, 1541459225]

def rotr32 (x : UInt32) (n : UInt32) : UInt32 :=
  (x >>> n) ||| (x <<< (32 - n))

def bigSigma0 (x : UInt32) : UInt32 := rotr32 x 2 ^^^ rotr32 x 13 ^^^ rotr32 x 22

def bigSigma1 (x : UInt32) : UInt32 := rotr32 x 6 ^^^ rotr32 x 11 ^^^ rotr32 x 25

def smallSigma0 (x : UInt32) : UInt32 := rotr32 x 7 ^^^ rotr32 x 18 ^^^ (x >>> 3)

def smallSigma1 (x : UInt32) : UInt32 := rotr32 x 17 ^^^ rotr32 x 19 ^^^ (x >>> 10)

/-- Append the `0x80` marker, zero padding to 56 mod 64, and the 64-bit
big-endian bit length. -/
def sha256Pad (msg : List UInt8) : List UInt8 :=
  let bitLen := msg.length * 8
  let padZeros := (119 - msg.length % 64) % 64
  msg ++ [0x80] ++ List.replicate padZeros 0 ++
    (List.range 8).map (fun i => UInt8.ofNat (bitLen / 2 ^ ((7 - i) * 8) % 256))

/-- Big-endian 4-byte groups to 32-bit words. -/
def bytesToWords : List UInt8 → List UInt32
  | b0 :: b1 :: b2 :: b3 :: rest =>
    (b0.toUInt32 <<< 24 ||| b1.toUInt32 <<< 16 ||| b2.toUInt32 <<< 8 ||| b3.toUInt32) ::
      bytesToWords rest
  | _ => []

/-- Extend the 16-word message schedule by `n` further words. -/
def sha256Extend (w : List UInt32) : Nat → List UInt32
  | 0 => w
  | n + 1 =>
    let i := w.length
    let nw := w.getD (i - 16) 0 + smallSigma0 (w.getD (i - 15) 0) +
      w.getD (i - 7) 0 + smallSigma1 (w.getD (i - 2) 0)
    sha256Extend (w ++ [nw]) n

structure Sha256State where
  a : UInt32
  b : UInt32
  c : UInt32
  d : UInt32
  e : UInt32
  f : UInt32
  g : UInt32
  h : UInt32

def sha256Round (s : Sha256State) (kw : UInt32 × UInt32) : Sha256State :=
  let ch := (s.e &&& s.f) ^^^ ((~~~s.e) &&& s.g)
  let t1 := s.h + bigSigma1 s.e + ch + kw.1 + kw.2
  let maj := (s.a &&& s.b) ^^^ (s.a &&& s.c) ^^^ (s.b &&& s.c)
  let t2 := bigSigma0 s.a + maj
  ⟨t1 + t2, s.a, s.b, s.c, s.d + t1, s.e, s.f, s.g⟩

def sha256Compress (hs : List UInt32) (chunk : List UInt8) : List UInt32 :=
  let w := sha256Extend (bytesToWords chunk) 48
  let init : Sha256State :=
    ⟨hs.getD 0 0, hs.getD 1 0, hs.getD 2 0, hs.getD 3 0,
     hs.getD 4 0, hs.getD 5 0, hs.getD 6 0, hs.getD 7 0⟩
  let s := (sha256K.zip w).foldl sha256Round init
  [hs.getD 0 0 + s.a, hs.getD 1 0 + s.b, hs.getD 2 0 + s.c, hs.getD 3 0 + s.d,
   hs.getD 4 0 + s.e, hs.getD 5 0 + s.f, hs.getD 6 0 + s.g, hs.getD 7 0 + s.h]

def chunks64 : List UInt8 → List (List UInt8)
  | [] => []
  | l@(_ :: _) => l.take 64 :: chunks64 (l.drop 64)
  termination_by l => l.length
  decreasing_by
    rename_i heq
    simp [List.length_drop, heq]
    omega

/-- Lowercase hex digest of the SHA-256 of the UTF-8 bytes of `s`. -/
def sha256hex (s : String) : String :=
  let msg := s.toUTF8.data.toList
  let final := (chunks64 (sha256Pad msg)).foldl sha256Compress sha256H0
  String.join (final.map (fun w => hexNat 8 w.toNat))

/-! ### Number coercions -/

/-- Decimal digits to a value; `none` when empty or a non-digit occurs. -/
def digitsToNat : List Char → Option Nat
  | [] => none
  | l => l.foldl (fun acc c =>
      match acc with
      | none => none
      | some n => if c.isDigit then some (n * 10 + (c.toNat - 48)) else none)
      (some 0)

/-- JS `Number(string)` restricted to the integral strings that flow through
the pipeline; the `NaN` result of a non-numeric string is abstracted to `0`
(no settled claim inspects that case). -/
def jsStringToIntA (s : String) : Int :=
  match s.trim.data with
  | [] => 0
  | '-' :: rest => match digitsToNat rest with | some n => -(n : Int) | none => 0
  | '+' :: rest => match digitsToNat rest with | some n => (n : Int) | none => 0
  | l => match digitsToNat l with | some n => (n : Int) | none => 0

/-- JS `Number(v)` for the values the normalizer converts (`meta.total`).
Arrays/objects (`NaN` except degenerate cases) are abstracted to `0`. -/
def Json.jsToNumberI : Json → Int
  | .null => 0
  | .bool b => if b then 1 else 0
  | .num n => n
  | .str s => jsStringToIntA s
  | .arr _ => 0
  | .obj _ => 0

/-- Leading digits of a list of chars plus the remaining suffix. -/
def spanDigits : List Char → List Char × List Char
  | [] => ([], [])
  | c :: rest =>
    if c.isDigit then
      let (ds, rs) := spanDigits rest
      (c :: ds, rs)
    else ([], c :: rest)

/-- JS `parseInt(s, 10)`: trim, optional sign, longest digit prefix;
`none` models `NaN`. -/
def parseIntJS (s : String) : Option Int :=
  let core : List Char → Option Int := fun l =>
    match spanDigits l with
    | ([], _) => none
    | (ds, _) => digitsToNat ds |>.map (fun n => (n : Int))
  match s.trim.data with
  | '-' :: rest => (core rest).map (fun n => -n)
  | '+' :: rest => core rest
  | l => core l

/-- `String(v)` where `v` may be `undefined` (`String(undefined)` is
`"undefined"`). -/
def jsToStringO : Option Json → String
  | some j => j.jsToString
  | none => "undefined"

/-! ### Response normalizer (`normalize.ts`)

Embeds `computeStableId` and `normalizeDbpiaResponse` exactly as written:
the three-tier id fallback (truthy native `id`, truthy `doi`, else the first
16 hex chars of the SHA-256 of ``title|authors.join(',')|year|publisher``),
and the per-item field extraction. -/

/-- The fields of a normalized article other than the derived `id`
(the `Partial<NormalizedArticle>` the source builds before deriving it).
`title` and the optional fields hold the raw dynamic values the source
passes through untyped. -/
structure NormalizedFields where
  title : Json
  authors : List Json
  year : Option String
  publisher : Option Json
  url : Option Json
  preview_url : Option Json
  keywords : List Json
  abstract : Json
  raw_json : Json
  deriving Repr, DecidableEq

structure NormalizedArticle extends NormalizedFields where
  id : String
  deriving Repr, DecidableEq

/-- `normalized.title || ''` as interpolated into the hash seed. -/
def stableTitle (n : NormalizedFields) : String :=
  if n.title.truthy then n.title.jsToString else ""

/-- `(normalized.authors || []).join(',')`. -/
def stableAuthors (n : NormalizedFields) : String :=
  Json.jsJoinComma n.authors

/-- `normalized.year || ''`. -/
def stableYear (n : NormalizedFields) : String :=
  n.year.getD ""

/-- `normalized.publisher || ''` as interpolated into the hash seed. -/
def stablePublisher (n : NormalizedFields) : String :=
  match n.publisher with
  | some p => if p.truthy then p.jsToString else ""
  | none => ""

/-- The `title|authors-joined-by-comma|year|publisher` hash seed of the
content-fingerprint fallback. -/
def stableIdSeed (n : NormalizedFields) : String :=
  stableTitle n ++ "|" ++ stableAuthors n ++ "|" ++ stableYear n ++ "|" ++
    stablePublisher n

/-- `computeStableId(normalized, raw_json)`. -/
def computeStableId (n : NormalizedFields) (raw : Json) : String :=
  let idv := raw.jGet "id"
  if truthyO idv then (idv.getD .null).jsToString
  else
    let doiv := raw.jGet "doi"
    if truthyO doiv then (doiv.getD .null).jsToString
    else (sha256hex (stableIdSeed n)).take 16

/-- First run of four consecutive decimal digits, as matched by
`/(\d{4})/`. -/
def firstFourDigitRun : List Char → Option String
  | c1 :: c2 :: c3 :: c4 :: rest =>
    if c1.isDigit && c2.isDigit && c3.isDigit && c4.isDigit then
      some (String.mk [c1, c2, c3, c4])
    else firstFourDigitRun (c2 :: c3 :: c4 :: rest)
  | _ => none

/-- The per-item mapping inside `normalizeDbpiaResponse`. -/
def normalizeItem (item : Json) : NormalizedArticle :=
  let authorData := jsGet (item.jGet "authors") "author"
  let authorArray : List Json :=
    match authorData with
    | some (.arr l) => l
    | some j => if j.truthy then [j] else []
    | none => []
  let authorNames : List Json := authorArray.map (fun a =>
    match a with
    | .str s => .str s
    | a =>
      if a.typeofStr = "object" then
        let n := a.jGet "name"
        if truthyO n then n.getD .null
        else
          let t := a.jGet "#text"
          if truthyO t then t.getD .null else .str ""
      else .str a.jsToString)
  let authors := authorNames.filter Json.lengthTruthy
  let year : Option String :=
    let pd := item.jGet "pub_date"
    if truthyO pd then some (String.mk (((pd.getD .null).jsToString).data.take 4))
    else
      let yymm := jsGet (item.jGet "issue") "yymm"
      if truthyO yymm then firstFourDigitRun ((yymm.getD .null).jsToString).data
      else none
  let publisher : Option Json :=
    match item.jGet "publisher" with
    | none => none
    | some p =>
      if p.typeofStr = "string" then some p
      else if p.typeofStr = "object" && truthyO (p.jGet "name") then p.jGet "name"
      else none
  let title : Json :=
    match item.jGet "title" with
    | some t => if t.truthy then t else .str ""
    | none => .str ""
  let url : Option Json :=
    let l := item.jGet "link"
    if truthyO l then l else item.jGet "link_url"
  let keywords : List Json :=
    match jsGet (item.jGet "keywords") "keyword" with
    | some (.arr l) => l
    | _ => []
  let abst : Json :=
    match item.jGet "abstract" with
    | some a => if a.truthy then a else .null
    | none => .null
  let fields : NormalizedFields :=
    { title := title, authors := authors, year := year, publisher := publisher,
      url := url, preview_url := item.jGet "preview_url", keywords := keywords,
      abstract := abst, raw_json := item }
  { toNormalizedFields := fields, id := computeStableId fields item }

structure ResultMeta where
  total : Option Int
  status : Option (String × String)
  deriving Repr, DecidableEq

structure NormalizationResult where
  items : List NormalizedArticle
  raw_json : Json
  meta : ResultMeta
  deriving Repr, DecidableEq

/-- `normalizeDbpiaResponse(parsed, target)`.  A truthy non-array
`root.result.items.item` makes the source call `.map` on a non-array,
a TypeError, modelled as `.error`. -/
def normalizeDbpiaResponse (parsed : Json) (_target : String) :
    Except String NormalizationResult :=
  let root := parsed.jGet "root"
  let status := jsGet root "status"
  let result := jsGet root "result"
  let rawItems : Json :=
    match jsGet (jsGet result "items") "item" with
    | some v => if v.truthy then v else .arr []
    | none => .arr []
  match rawItems with
  | .arr l =>
    .ok
      { items := l.map normalizeItem
        raw_json := parsed
        meta :=
          { total :=
              match jsGet result "total" with
              | some t => if t.truthy then some t.jsToNumberI else none
              | none => none
            status :=
              match status with
              | some st =>
                if st.truthy then
                  some (jsToStringO (st.jGet "code"), jsToStringO (st.jGet "message"))
                else none
              | none => none } }
  | v => .error ("TypeError: " ++ v.typeofStr ++ ".map is not a function")

/-- `parseDbpiaXml(xml)`: `null` for an empty (falsy) input, otherwise the
XML parser's output — the parser itself (fast-xml-parser) is an external
collaborator, supplied as an oracle. -/
def parseDbpiaXml (parserOut : String → Json) (xml : String) : Json :=
  if xml = "" then .null else parserOut xml

/-! ### Query cache (`queryCache.ts`)

Timestamps are modelled as integer milliseconds; the source's ISO
`YYYY-MM-DD HH:MM:SS` strings compare lexicographically exactly as their
instants compare numerically, and `computeExpiresAt`'s calendar-day addition
is day-length addition.  The stored `result_json`/`params_json` strings are
modelled at the JSON-value level: `JSON.parse ∘ JSON.stringify` is the
identity on JSON values, and the lossy step (`undefined` members being
dropped) is modelled explicitly by `encodeResult` below. -/

def msPerDay : Int := 86400000

structure CachedQuery where
  cache_key : String
  tool : String
  params_json : Json
  result_json : Json
  fetched_at : Int
  expires_at : Int
  deriving Repr, DecidableEq

/-- `Object.keys(params).sort()` then rebuild the object in sorted key
order (the `reduce` in `makeCacheKey`). -/
def sortObjectKeys (params : List (String × Json)) : List (String × Json) :=
  ((params.map Prod.fst).mergeSort (fun a b => decide (a ≤ b))).map
    (fun k => (k, (params.lookup k).getD .null))

/-- `makeCacheKey({tool, target, params, page, pagecount})`. -/
def makeCacheKey (tool target : String) (params : List (String × Json))
    (page pagecount : Option Int) : String :=
  let sortedParams := sortObjectKeys params
  let canonical : Json := .obj
    [("tool", .str tool), ("target", .str target), ("params", .obj sortedParams),
     ("page", .num (page.getD 1)), ("pagecount", .num (pagecount.getD 20))]
  sha256hex canonical.stringify

/-- `getCachedQuery`: point lookup filtered by `expires_at > now`. -/
def getCachedQuery (cache : List CachedQuery) (cacheKey : String) (now : Int) :
    Option CachedQuery :=
  cache.find? (fun r => r.cache_key == cacheKey && decide (now < r.expires_at))

structure CachedQueryInput where
  cache_key : String
  tool : String
  params_json : Json
  result_json : Json
  expires_at : Int
  deriving Repr, DecidableEq

/-- `setCachedQuery`: full-row upsert keyed by `cache_key`, stamping
`fetched_at` with the current time. -/
def setCachedQuery (now : Int) (cache : List CachedQuery) (rec : CachedQueryInput) :
    List CachedQuery :=
  let row : CachedQuery :=
    ⟨rec.cache_key, rec.tool, rec.params_json, rec.result_json, now, rec.expires_at⟩
  if cache.any (fun r => r.cache_key == rec.cache_key) then
    cache.map (fun r => if r.cache_key == rec.cache_key then row else r)
  else cache ++ [row]

/-- `computeExpiresAt(ttlDays)`: now plus `ttlDays` days. -/
def computeExpiresAt (now : Int) (ttlDays : Int) : Int :=
  now + ttlDays * msPerDay

/-! ### Articles table (`articles.ts`) -/

/-- One row of the `articles` table.  `authors` and `raw_json` hold the
values whose `JSON.stringify` text the source stores; `journal` is `.null`
for SQL NULL. -/
structure ArticleRow where
  id : String
  title : Json
  authors : Json
  journal : Json
  pub_year : Option Int
  raw_json : Json
  updated_at : Int
  fulltext : Option String
  pdf_path : Option String
  download_status : Option String
  downloaded_at : Option Int
  deriving Repr, DecidableEq

/-- The column values bound for one article by `upsertArticles`:
`(article.id, article.title, JSON.stringify(article.authors),
article.publisher || null, article.year ? parseInt(article.year, 10) : null,
JSON.stringify(article.raw_json ?? {}))`. -/
def articleJournal (a : NormalizedArticle) : Json :=
  match a.publisher with
  | some p => if p.truthy then p else .null
  | none => .null

def articlePubYear (a : NormalizedArticle) : Option Int :=
  match a.year with
  | some y => if y ≠ "" then parseIntJS y else none
  | none => none

/-- Insert-or-update of one article (`ON CONFLICT(id) DO UPDATE` sets
exactly title, authors, journal, pub_year, raw_json, updated_at). -/
def upsertOne (now : Int) (t : List ArticleRow) (a : NormalizedArticle) :
    List ArticleRow :=
  if t.any (fun r => r.id == a.id) then
    t.map (fun r =>
      if r.id == a.id then
        { r with
          title := a.title
          authors := .arr a.authors
          journal := articleJournal a
          pub_year := articlePubYear a
          raw_json := a.raw_json
          updated_at := now }
      else r)
  else
    t ++ [{ id := a.id, title := a.title, authors := .arr a.authors,
            journal := articleJournal a, pub_year := articlePubYear a,
            raw_json := a.raw_json, updated_at := now,
            fulltext := none, pdf_path := none, download_status := none,
            downloaded_at := none }]

/-- `upsertArticles(db, items)`: the prepared upsert run for each item in
order, inside one transaction. -/
def upsertArticles (now : Int) (t : List ArticleRow) (items : List NormalizedArticle) :
    List ArticleRow :=
  items.foldl (upsertOne now) t

/-! ### Serialization of the normalized result

`encodeResult` is `JSON.stringify` of the `DbpiaNormalizationResult` object
at the value level: members whose value is `undefined` (`none`) are dropped,
`null` members are kept, key order is the object-literal insertion order.
`decodeResult` is `JSON.parse` of that text together with the property reads
the TS code performs on the (cast, not converted) parsed object. -/

def encodeArticle (a : NormalizedArticle) : Json :=
  .obj
    ([("title", a.title), ("authors", .arr a.authors)] ++
      (match a.year with | some y => [("year", Json.str y)] | none => []) ++
      (match a.publisher with | some p => [("publisher", p)] | none => []) ++
      (match a.url with | some u => [("url", u)] | none => []) ++
      (match a.preview_url with | some u => [("preview_url", u)] | none => []) ++
      [("keywords", .arr a.keywords), ("abstract", a.abstract),
       ("raw_json", a.raw_json), ("id", .str a.id)])

def encodeResult (r : NormalizationResult) : Json :=
  .obj
    [("items", .arr (r.items.map encodeArticle)),
     ("raw_json", r.raw_json),
     ("meta", .obj
       ((match r.meta.total with | some t => [("total", Json.num t)] | none => []) ++
        (match r.meta.status with
         | some (c, m) =>
           [("status", Json.obj [("code", .str c), ("message", .str m)])]
         | none => [])))]

def decodeArticle (j : Json) : NormalizedArticle :=
  { id := match j.jGet "id" with | some (.str s) => s | _ => ""
    title := (j.jGet "title").getD .null
    authors := match j.jGet "authors" with | some (.arr l) => l | _ => []
    year := match j.jGet "year" with | some (.str s) => some s | _ => none
    publisher := j.jGet "publisher"
    url := j.jGet "url"
    preview_url := j.jGet "preview_url"
    keywords := match j.jGet "keywords" with | some (.arr l) => l | _ => []
    abstract := (j.jGet "abstract").getD .null
    raw_json := (j.jGet "raw_json").getD .null }

def decodeResult (j : Json) : NormalizationResult :=
  { items := match j.jGet "items" with | some (.arr l) => l.map decodeArticle | _ => []
    raw_json := (j.jGet "raw_json").getD .null
    meta :=
      { total := match jsGet (j.jGet "meta") "total" with | some (.num n) => some n | _ => none
        status :=
          match jsGet (j.jGet "meta") "status" with
          | some st =>
            if st.truthy then
              some (match st.jGet "code" with | some (.str c) => c | _ => "",
                    match st.jGet "message" with | some (.str m) => m | _ => "")
            else none
          | none => none } }

/-! ### Query orchestrator (`runQuery.ts`)

The network fetch (rate-limited transport) and the XML parser are external
at this level and supplied as oracles; everything else is the source's
control flow.  The returned `Bool` records whether a network fetch was
performed. -/

structure RunQueryOptions where
  tool : String
  target : String
  params : List (String × Json)
  page : Option Int
  pagecount : Option Int
  refresh : Bool
  apiKeyOverride : Option String
  deriving Repr, DecidableEq

structure Store where
  articles : List ArticleRow
  queryCache : List CachedQuery
  deriving Repr, DecidableEq

inductive QueryError where
  | fetchFail (name msg : String)
  | normalizeFail (msg : String)
  deriving Repr, DecidableEq

/-- JS object member write `obj[k] = v`: overwrite in place, or append. -/
def setKey (l : List (String × Json)) (k : String) (v : Json) :
    List (String × Json) :=
  if l.any (fun p => p.1 == k) then
    l.map (fun p => if p.1 == k then (k, v) else p)
  else l ++ [(k, v)]

/-- The outbound parameter assembly of `runQuery`:
`{...params, target}` plus truthy `page`/`pagecount` plus the API key
(explicit override wins over the environment credential). -/
def assembleQueryParams (opts : RunQueryOptions) (envApiKey : Option String) :
    List (String × Json) :=
  let qp := setKey opts.params "target" (.str opts.target)
  let qp := match opts.page with
    | some p => if p ≠ 0 then setKey qp "page" (.num p) else qp
    | none => qp
  let qp := match opts.pagecount with
    | some p => if p ≠ 0 then setKey qp "pagecount" (.num p) else qp
    | none => qp
  match opts.apiKeyOverride with
  | some k => if k ≠ "" then setKey qp "key" (.str k) else
      (match envApiKey with
       | some e => if e ≠ "" then setKey qp "key" (.str e) else qp
       | none => qp)
  | none =>
    match envApiKey with
    | some e => if e ≠ "" then setKey qp "key" (.str e) else qp
    | none => qp

/-- `runQuery(options)`. -/
def runQuery
    (fetchXml : List (String × Json) → Except (String × String) String)
    (parserOut : String → Json)
    (envApiKey : Option String) (envTtlDays : Option Int) (now : Int)
    (opts : RunQueryOptions) (db : Store) :
    Except QueryError (NormalizationResult × Store × Bool) :=
  let cacheKey := makeCacheKey opts.tool opts.target opts.params opts.page opts.pagecount
  let cachedHit := if opts.refresh then none else getCachedQuery db.queryCache cacheKey now
  match cachedHit with
  | some row => .ok (decodeResult row.result_json, db, false)
  | none =>
    let queryParams := assembleQueryParams opts envApiKey
    match fetchXml queryParams with
    | .error (n, m) => .error (.fetchFail n m)
    | .ok xml =>
      match normalizeDbpiaResponse (parseDbpiaXml parserOut xml) opts.target with
      | .error m => .error (.normalizeFail m)
      | .ok normalized =>
        let articles2 := upsertArticles now db.articles normalized.items
        let ttlDays := envTtlDays.getD 7
        let cache2 := setCachedQuery now db.queryCache
          ⟨cacheKey, opts.tool, .obj opts.params, encodeResult normalized,
           computeExpiresAt now ttlDays⟩
        .ok (normalized, ⟨articles2, cache2⟩, true)

/-! ### Write mutex (`mutex.ts`)

Transition system over the mutex's `locked` flag and FIFO wait queue, with
ghost fields recording the acquire-call history (`arrivals`), the grant
history (`granted`), and which tasks currently hold the lock (`running` —
granted and not yet released).  An `acquire` grants immediately when
unlocked, else queues; a `release` hands the lock to the queue head or
unlocks.  Task ids are `Nat`. -/

structure MutexState where
  locked : Bool
  queue : List Nat
  running : List Nat
  granted : List Nat
  arrivals : List Nat
  deriving Repr, DecidableEq

def MutexState.init : MutexState := ⟨false, [], [], [], []⟩

inductive MutexEvent where
  | acquire (t : Nat)
  | release (t : Nat)
  deriving Repr, DecidableEq

def mutexStep (s : MutexState) : MutexEvent → MutexState
  | .acquire t =>
    if s.locked then
      { s with queue := s.queue ++ [t], arrivals := s.arrivals ++ [t] }
    else
      { s with
        locked := true
        running := s.running ++ [t]
        granted := s.granted ++ [t]
        arrivals := s.arrivals ++ [t] }
  | .release t =>
    if t ∈ s.running then
      match s.queue with
      | next :: rest =>
        { s with
          queue := rest
          running := s.running.erase t ++ [next]
          granted := s.granted ++ [next] }
      | [] => { s with locked := false, running := s.running.erase t }
    else s

def mutexRun (events : List MutexEvent) : MutexState :=
  events.foldl mutexStep .init

/-- `runExclusive(fn)` from the point where the lock is held by `t`:
the body's outcome is returned as-is (an error is re-raised) and the
`finally` releases on both paths. -/
def runExclusiveOnHeld {ε α : Type} (s : MutexState) (t : Nat)
    (body : Except ε α) : Except ε α × MutexState :=
  match body with
  | .ok v => (.ok v, mutexStep s (.release t))
  | .error e => (.error e, mutexStep s (.release t))

/-! ### Sliding-window rate limiter (`rateLimiter.ts`)

Transition system over the limiter closure's `timestamps` and `queue`,
with ghost history fields: `admitted` (all admissions, with their recorded
timestamps), `enqHistory` (every caller that was enqueued, in order),
`admittedFromQueue` (the queue admissions, in order), `rejected`.
Timer firings are modelled as spontaneous `timer` events, which covers
every schedule the source's `setTimeout` bookkeeping can produce. -/

structure RLConfig where
  limit : Nat
  windowMs : Int
  maxQueueDelayMs : Int
  deriving Repr, DecidableEq

def defaultMaxQueueDelayMs : Int := 10000

structure RLState where
  timestamps : List Int
  queue : List (Nat × Int)
  admitted : List (Nat × Int)
  enqHistory : List Nat
  admittedFromQueue : List Nat
  rejected : List Nat
  deriving Repr, DecidableEq

def RLState.init : RLState := ⟨[], [], [], [], [], []⟩

/-- `cleanup()`: drop timestamps at or before `now - windowMs`. -/
def rlCleanup (cfg : RLConfig) (now : Int) (ts : List Int) : List Int :=
  ts.filter (fun t => decide (now - cfg.windowMs < t))

structure RLDrainResult where
  timestamps : List Int
  queue : List (Nat × Int)
  admitted : List (Nat × Int)
  admittedFromQueue : List Nat
  deriving Repr, DecidableEq

/-- The admit loop of `processQueue`: while the queue is non-empty and a
slot is free, shift the queue head, record `now`, resolve the caller. -/
def rlDrainLoop (cfg : RLConfig) (now : Int) (ts : List Int) :
    List (Nat × Int) → List (Nat × Int) → List Nat → RLDrainResult
  | [], adm, admQ => ⟨ts, [], adm, admQ⟩
  | (id, t0) :: rest, adm, admQ =>
    if ts.length < cfg.limit then
      rlDrainLoop cfg now (ts ++ [now]) rest (adm ++ [(id, now)]) (admQ ++ [id])
    else ⟨ts, (id, t0) :: rest, adm, admQ⟩

/-- `processQueue()` (sans the timer rescheduling, which the `timer`
events model). -/
def rlProcessQueue (cfg : RLConfig) (now : Int) (s : RLState) : RLState :=
  let ts1 := rlCleanup cfg now s.timestamps
  let r := rlDrainLoop cfg now ts1 s.queue s.admitted s.admittedFromQueue
  { s with
    timestamps := r.timestamps
    queue := r.queue
    admitted := r.admitted
    admittedFromQueue := r.admittedFromQueue }

/-- The wait estimate of `acquire`:
`timestamps[queueIndex % limit] || timestamps[0]` (a falsy/missing entry
falls back to the head) plus one window per `limit` queued positions. -/
def rlEstimatedWait (cfg : RLConfig) (ts : List Int) (queueIndex : Nat)
    (now : Int) : Int :=
  let base : Int :=
    if cfg.limit ≤ ts.length then
      let referenceTs :=
        match ts.get? (queueIndex % cfg.limit) with
        | some v => if v ≠ 0 then v else ts.headD 0
        | none => ts.headD 0
      max 0 (referenceTs + cfg.windowMs - now)
    else 0
  base + ((queueIndex / cfg.limit : Nat) : Int) * cfg.windowMs

inductive AcquireResult where
  | admitted (queuedMs : Int)
  | queued
  | rejected (estimatedWait : Int)
  deriving Repr, DecidableEq

/-- `acquire()`: cleanup; fast-path admit when a slot is free and nobody
waits; otherwise estimate the wait, reject (throw `RateLimiterError`)
when it exceeds `maxQueueDelayMs`, else enqueue and run `processQueue`. -/
def rlAcquire (cfg : RLConfig) (id : Nat) (now : Int) (s : RLState) :
    AcquireResult × RLState :=
  let ts1 := rlCleanup cfg now s.timestamps
  if ts1.length < cfg.limit ∧ s.queue = [] then
    (.admitted 0,
      { s with timestamps := ts1 ++ [now], admitted := s.admitted ++ [(id, now)] })
  else
    let queueIndex := s.queue.length
    let est := rlEstimatedWait cfg ts1 queueIndex now
    if cfg.maxQueueDelayMs < est then
      (.rejected est, { s with timestamps := ts1, rejected := s.rejected ++ [id] })
    else
      (.queued,
        rlProcessQueue cfg now
          { s with
            timestamps := ts1
            queue := s.queue ++ [(id, now)]
            enqHistory := s.enqHistory ++ [id] })

/-- `schedule(fn)`: `await acquire()` then run the task — the task runs
(now, or on admission from the queue) unless `acquire` threw. -/
def rlSchedule (cfg : RLConfig) (id : Nat) (now : Int) (s : RLState) :
    Bool × RLState :=
  match rlAcquire cfg id now s with
  | (.rejected _, s') => (false, s')
  | (_, s') => (true, s')

inductive RLEvent where
  | acquire (id : Nat) (now : Int)
  | timer (now : Int)
  deriving Repr, DecidableEq

def RLEvent.time : RLEvent → Int
  | .acquire _ now => now
  | .timer now => now

def rlStep (cfg : RLConfig) (s : RLState) : RLEvent → RLState
  | .acquire id now => (rlAcquire cfg id now s).2
  | .timer now => rlProcessQueue cfg now s

def rlRun (cfg : RLConfig) (events : List RLEvent) : RLState :=
  events.foldl (rlStep cfg) .init

/-- The number of admissions recorded inside the trailing window ending
at `T`. -/
def rlCountWin (cfg : RLConfig) (times : List Int) (T : Int) : Nat :=
  times.countP (fun t => decide (T - cfg.windowMs < t) && decide (t ≤ T))

/-! ### Transport retry loop (`fetchXml.ts`)

The network attempt outcomes are an oracle indexed by attempt number; the
loop body's classification and retry decision are the source's: retry iff
the error is an `AbortError` or its message contains `"HTTP Error: 5"`,
and only while `attempt < maxRetries`, sleeping `retryBackoffMs * 2^attempt`
before the next attempt. -/

inductive AttemptOutcome where
  | success (xml : String)
  | httpError (status : Nat) (statusText : String)
  | abortError
  | otherError (name msg : String)
  deriving Repr, DecidableEq

def defaultMaxRetries : Nat := 2

def defaultRetryBackoffMs : Int := 1000

/-- `error.name`. -/
def AttemptOutcome.errName : AttemptOutcome → String
  | .success _ => ""
  | .httpError _ _ => "Error"
  | .abortError => "AbortError"
  | .otherError n _ => n

/-- `error.message`; an `!response.ok` status raises
``new Error(`HTTP Error: ${status} ${statusText}`)``. -/
def AttemptOutcome.errMsg : AttemptOutcome → String
  | .success _ => ""
  | .httpError st stx => "HTTP Error: " ++ toString st ++ " " ++ stx
  | .abortError => "This operation was aborted"
  | .otherError _ m => m

/-- `haystack.includes(needle)`. -/
def strContains (haystack needle : String) : Bool :=
  (List.range (haystack.data.length + 1)).any
    (fun i => needle.data.isPrefixOf (haystack.data.drop i))

/-- `const shouldRetry = isAbort || isServerError`. -/
def shouldRetry (o : AttemptOutcome) : Bool :=
  o.errName == "AbortError" || strContains o.errMsg "HTTP Error: 5"

instance {e a : Type} [DecidableEq e] [DecidableEq a] : DecidableEq (Except e a)
  | .ok x, .ok y =>
    match decEq x y with
    | isTrue h => isTrue (by rw [h])
    | isFalse h => isFalse (fun he => by cases he; exact h rfl)
  | .error x, .error y =>
    match decEq x y with
    | isTrue h => isTrue (by rw [h])
    | isFalse h => isFalse (fun he => by cases he; exact h rfl)
  | .ok _, .error _ => isFalse (fun h => Except.noConfusion h)
  | .error _, .ok _ => isFalse (fun h => Except.noConfusion h)

structure FetchOutcome where
  result : Except AttemptOutcome String
  tries : Nat
  sleeps : List Int
  deriving Repr, DecidableEq

/-- The retry loop from attempt `attempt` with `remaining` retries left
(`remaining = maxRetries - attempt`, so the guard `attempt < maxRetries`
is `0 < remaining`).  Returns the outcome, the number of attempts made,
and the backoff sleeps performed. -/
def fetchGo (oracle : Nat → AttemptOutcome) (backoff : Int) :
    Nat → Nat → FetchOutcome
  | attempt, remaining =>
    match oracle attempt with
    | .success xml => ⟨.ok xml, 1, []⟩
    | o =>
      if shouldRetry o then
        match remaining with
        | r + 1 =>
          let rest := fetchGo oracle backoff (attempt + 1) r
          ⟨rest.result, rest.tries + 1, backoff * 2 ^ attempt :: rest.sleeps⟩
        | 0 => ⟨.error o, 1, []⟩
      else ⟨.error o, 1, []⟩

/-- `fetchDbpiaXml` as a function of the per-attempt outcomes. -/
def fetchDbpiaXml (oracle : Nat → AttemptOutcome) (maxRetries : Nat)
    (backoff : Int) : FetchOutcome :=
  fetchGo oracle backoff 0 maxRetries

/-! ## Theorems -/

/-! ### C2 — stable identity derivation -/

theorem string_append_cancel_right {a b c : String} (h : a ++ c = b ++ c) :
    a = b := by
  have hd := congrArg String.data h
  simp only [String.data_append] at hd
  exact String.ext (List.append_cancel_right hd)

theorem string_append_cancel_left {a b c : String} (h : a ++ b = a ++ c) :
    b = c := by
  have hd := congrArg String.data h
  simp only [String.data_append] at hd
  exact String.ext (List.append_cancel_left hd)

theorem seed_ne_of_title_ne {n1 n2 : NormalizedFields}
    (ha : stableAuthors n1 = stableAuthors n2) (hy : stableYear n1 = stableYear n2)
    (hp : stablePublisher n1 = stablePublisher n2)
    (ht : stableTitle n1 ≠ stableTitle n2) : stableIdSeed n1 ≠ stableIdSeed n2 := by
  intro h
  apply ht
  unfold stableIdSeed at h
  rw [ha, hy, hp] at h
  have h' := congrArg String.data h
  simp only [String.data_append, List.append_assoc] at h'
  exact String.ext (List.append_cancel_right h')

theorem seed_ne_of_middle_ne {t r x1 x2 : String} (hx : x1 ≠ x2) :
    t ++ "|" ++ x1 ++ r ≠ t ++ "|" ++ x2 ++ r := by
  intro h
  apply hx
  have h' := congrArg String.data h
  simp only [String.data_append, List.append_assoc] at h'
  exact String.ext
    (List.append_cancel_right (List.append_cancel_left (List.append_cancel_left h')))

/-- Claim C2 (amended): `computeStableId` is a pure three-tier fallback —
a truthy native `id` is used verbatim (stringified), else a truthy `doi`,
else the first 16 hex chars of the SHA-256 of the seed
`title|authors.join(',')|year|publisher`; items with equal seeds and no
id/doi always get equal ids, and changing exactly one of the four seed
fields changes the seed whenever its coerced encoding differs (the title's
encoding always distinguishes; author lists are distinguished only up to
comma-joining, year and publisher only up to empty-string defaulting). -/
theorem c2_stable_identity :
    (∀ (n1 n2 : NormalizedFields) (raw1 raw2 : Json),
      truthyO (raw1.jGet "id") = false → truthyO (raw1.jGet "doi") = false →
      truthyO (raw2.jGet "id") = false → truthyO (raw2.jGet "doi") = false →
      stableIdSeed n1 = stableIdSeed n2 →
      computeStableId n1 raw1 = computeStableId n2 raw2) ∧
    (∀ (n : NormalizedFields) (raw : Json), truthyO (raw.jGet "id") = true →
      computeStableId n raw = ((raw.jGet "id").getD .null).jsToString) ∧
    (∀ (n : NormalizedFields) (raw : Json), truthyO (raw.jGet "id") = false →
      truthyO (raw.jGet "doi") = true →
      computeStableId n raw = ((raw.jGet "doi").getD .null).jsToString) ∧
    (∀ (n : NormalizedFields) (raw : Json), truthyO (raw.jGet "id") = false →
      truthyO (raw.jGet "doi") = false →
      computeStableId n raw = (sha256hex (stableIdSeed n)).take 16) ∧
    (∀ n1 n2 : NormalizedFields,
      stableAuthors n1 = stableAuthors n2 → stableYear n1 = stableYear n2 →
      stablePublisher n1 = stablePublisher n2 → stableTitle n1 ≠ stableTitle n2 →
      stableIdSeed n1 ≠ stableIdSeed n2) ∧
    (∀ n1 n2 : NormalizedFields,
      stableTitle n1 = stableTitle n2 → stableYear n1 = stableYear n2 →
      stablePublisher n1 = stablePublisher n2 → stableAuthors n1 ≠ stableAuthors n2 →
      stableIdSeed n1 ≠ stableIdSeed n2) ∧
    (∀ n1 n2 : NormalizedFields,
      stableTitle n1 = stableTitle n2 → stableAuthors n1 = stableAuthors n2 →
      stablePublisher n1 = stablePublisher n2 → stableYear n1 ≠ stableYear n2 →
      stableIdSeed n1 ≠ stableIdSeed n2) ∧
    (∀ n1 n2 : NormalizedFields,
      stableTitle n1 = stableTitle n2 → stableAuthors n1 = stableAuthors n2 →
      stableYear n1 = stableYear n2 → stablePublisher n1 ≠ stablePublisher n2 →
      stableIdSeed n1 ≠ stableIdSeed n2) := by
  refine ⟨?_, ?_, ?_, ?_, ?_, ?_, ?_, ?_⟩
  · intro n1 n2 raw1 raw2 h1 h2 h3 h4 hseed
    simp only [computeStableId, h1, h2, h3, h4, Bool.false_eq_true, if_false, hseed]
  · intro n raw h
    simp only [computeStableId, h, if_true]
  · intro n raw h1 h2
    simp only [computeStableId, h1, h2, Bool.false_eq_true, if_false, if_true]
  · intro n raw h1 h2
    simp only [computeStableId, h1, h2, Bool.false_eq_true, if_false]
  · exact fun n1 n2 ha hy hp ht => seed_ne_of_title_ne ha hy hp ht
  · intro n1 n2 ht hy hp ha
    unfold stableIdSeed
    rw [ht, hy, hp]
    have := seed_ne_of_middle_ne (t := stableTitle n2)
      (r := "|" ++ stableYear n2 ++ "|" ++ stablePublisher n2) ha
    intro h
    apply this
    calc stableTitle n2 ++ "|" ++ stableAuthors n1 ++
          ("|" ++ stableYear n2 ++ "|" ++ stablePublisher n2)
        = stableTitle n2 ++ "|" ++ stableAuthors n1 ++ "|" ++ stableYear n2 ++ "|" ++
          stablePublisher n2 := by
          simp only [String.append_assoc]
      _ = stableTitle n2 ++ "|" ++ stableAuthors n2 ++ "|" ++ stableYear n2 ++ "|" ++
          stablePublisher n2 := h
      _ = stableTitle n2 ++ "|" ++ stableAuthors n2 ++
          ("|" ++ stableYear n2 ++ "|" ++ stablePublisher n2) := by
          simp only [String.append_assoc]
  · intro n1 n2 ht ha hp hy
    unfold stableIdSeed
    rw [ht, ha, hp]
    have := seed_ne_of_middle_ne (t := stableTitle n2 ++ "|" ++ stableAuthors n2)
      (r := "|" ++ stablePublisher n2) hy
    intro h
    apply this
    calc stableTitle n2 ++ "|" ++ stableAuthors n2 ++ "|" ++ stableYear n1 ++
          ("|" ++ stablePublisher n2)
        = stableTitle n2 ++ "|" ++ stableAuthors n2 ++ "|" ++ stableYear n1 ++ "|" ++
          stablePublisher n2 := by
          simp only [String.append_assoc]
      _ = stableTitle n2 ++ "|" ++ stableAuthors n2 ++ "|" ++ stableYear n2 ++ "|" ++
          stablePublisher n2 := h
      _ = stableTitle n2 ++ "|" ++ stableAuthors n2 ++ "|" ++ stableYear n2 ++
          ("|" ++ stablePublisher n2) := by
          simp only [String.append_assoc]
  · intro n1 n2 ht ha hy hp
    unfold stableIdSeed
    rw [ht, ha, hy]
    intro h
    exact hp (string_append_cancel_left h)

/-- The concrete fields of the C2 counterexample: an item with no native
id and no DOI. -/
def cexFieldsA : NormalizedFields :=
  ⟨.str "T", [.str "a,b"], some "2020", some (.str "P"), none, none, [], .null, .obj []⟩

/-- Same item with a different author list whose comma-join coincides. -/
def cexFieldsB : NormalizedFields :=
  { cexFieldsA with authors := [.str "a", .str "b"] }

/-- Claim C2, counterexample: two items without native id/DOI whose author
lists differ (`["a,b"]` versus `["a","b"]`) receive the same stable id —
`join(',')` conflates them into the same hash seed, so changing `authors`
need not change the id. -/
theorem c2_stable_identity_cex :
    computeStableId cexFieldsA (.obj []) = computeStableId cexFieldsB (.obj []) ∧
    cexFieldsA.authors ≠ cexFieldsB.authors := by
  refine ⟨?_, by decide⟩
  have hseed : stableIdSeed cexFieldsA = stableIdSeed cexFieldsB := by decide
  have e1 : computeStableId cexFieldsA (.obj []) =
      (sha256hex (stableIdSeed cexFieldsA)).take 16 := rfl
  have e2 : computeStableId cexFieldsB (.obj []) =
      (sha256hex (stableIdSeed cexFieldsB)).take 16 := rfl
  rw [e1, e2, hseed]

/-- Claim C2, witness: the amended theorem applied at concrete items — a
truthy native id is returned verbatim, the no-id/no-DOI case uses the
fingerprint, and a changed title changes the seed. -/
theorem c2_stable_identity_witness :
    computeStableId ⟨.str "X", [], none, none, none, none, [], .null, .obj []⟩
        (.obj [("id", .str "NODE7")]) = "NODE7" ∧
    computeStableId ⟨.str "X", [], none, none, none, none, [], .null, .obj []⟩
        (.obj []) =
      (sha256hex (stableIdSeed
        ⟨.str "X", [], none, none, none, none, [], .null, .obj []⟩)).take 16 ∧
    stableIdSeed ⟨.str "A", [], none, none, none, none, [], .null, .obj []⟩ ≠
      stableIdSeed ⟨.str "B", [], none, none, none, none, [], .null, .obj []⟩ := by
  refine ⟨?_, ?_, ?_⟩
  · exact (c2_stable_identity.2.1
      ⟨.str "X", [], none, none, none, none, [], .null, .obj []⟩
      (.obj [("id", .str "NODE7")]) (by decide)).trans rfl
  · exact c2_stable_identity.2.2.2.1
      ⟨.str "X", [], none, none, none, none, [], .null, .obj []⟩
      (.obj []) (by decide) (by decide)
  · exact c2_stable_identity.2.2.2.2.1
      ⟨.str "A", [], none, none, none, none, [], .null, .obj []⟩
      ⟨.str "B", [], none, none, none, none, [], .null, .obj []⟩
      (by decide) (by decide) (by decide) (by decide)

/-! ### C8 — cache-key canonicalization -/

theorem lookup_eq_of_perm {l1 l2 : List (String × Json)} (p : l1.Perm l2)
    (nd : (l1.map Prod.fst).Nodup) (k : String) : l1.lookup k = l2.lookup k := by
  induction p with
  | nil => rfl
  | cons x _ ih =>
    obtain ⟨kx, vx⟩ := x
    simp only [List.map_cons] at nd
    cases h : k == kx <;> simp [List.lookup, h, ih nd.of_cons]
  | swap x y t =>
    obtain ⟨kx, vx⟩ := x
    obtain ⟨ky, vy⟩ := y
    simp only [List.map_cons] at nd
    have hne : ky ≠ kx := by
      intro h
      subst h
      exact (List.nodup_cons.mp nd).1 (List.mem_cons_self _ _)
    cases h1 : k == ky <;> cases h2 : k == kx
    · simp [List.lookup, h1, h2]
    · simp [List.lookup, h1, h2]
    · simp [List.lookup, h1, h2]
    · exact absurd ((eq_of_beq h1).symm.trans (eq_of_beq h2)) hne
  | trans p1 _ ih1 ih2 =>
    exact (ih1 nd).trans (ih2 (((p1.map Prod.fst).nodup_iff).mp nd))

theorem sortObjectKeys_eq_of_perm {l1 l2 : List (String × Json)} (p : l1.Perm l2)
    (nd : (l1.map Prod.fst).Nodup) : sortObjectKeys l1 = sortObjectKeys l2 := by
  unfold sortObjectKeys
  have hkeys : (l1.map Prod.fst).mergeSort (fun a b => decide (a ≤ b)) =
      (l2.map Prod.fst).mergeSort (fun a b => decide (a ≤ b)) := by
    apply List.eq_of_perm_of_sorted (r := (· ≤ ·))
    · exact ((List.mergeSort_perm _ _).trans (p.map Prod.fst)).trans
        (List.mergeSort_perm _ _).symm
    · exact List.sorted_mergeSort' _
    · exact List.sorted_mergeSort' _
  rw [hkeys]
  exact List.map_congr_left (fun k _ => by rw [lookup_eq_of_perm p nd k])

/-- Claim C8: `makeCacheKey` is a pure function of
`(tool, target, params, page, pagecount)` that sorts the parameter keys and
defaults `page` to 1 and `pagecount` to 20, so two requests whose parameter
objects are equal as key→value mappings (in any insertion order) and whose
`page`/`pagecount` agree after defaulting produce identical cache keys. -/
theorem c8_cache_key_canonicalization (tool target : String)
    (params1 params2 : List (String × Json)) (page1 page2 pc1 pc2 : Option Int)
    (hnd : (params1.map Prod.fst).Nodup) (hperm : params1.Perm params2)
    (hp : page1.getD 1 = page2.getD 1) (hpc : pc1.getD 20 = pc2.getD 20) :
    makeCacheKey tool target params1 page1 pc1 =
      makeCacheKey tool target params2 page2 pc2 := by
  unfold makeCacheKey
  rw [sortObjectKeys_eq_of_perm hperm hnd, hp, hpc]

/-- Claim C8, witness: the theorem applied to a two-key parameter object
supplied in both orders, with `page`/`pagecount` absent versus explicitly
defaulted. -/
theorem c8_cache_key_canonicalization_witness :
    makeCacheKey "search" "se" [("searchall", .str "ai"), ("page", .num 2)]
        none none =
      makeCacheKey "search" "se" [("page", .num 2), ("searchall", .str "ai")]
        (some 1) (some 20) := by
  exact c8_cache_key_canonicalization "search" "se"
    [("searchall", .str "ai"), ("page", .num 2)]
    [("page", .num 2), ("searchall", .str "ai")]
    none (some 1) none (some 20)
    (by decide) (by decide) (by decide) (by decide)

/-! ### C10 — normalizer on degenerate inputs -/

/-- The `result?.items?.item` read of `normalizeDbpiaResponse`. -/
def rawItemsPath (parsed : Json) : Option Json :=
  jsGet (jsGet (jsGet (parsed.jGet "root") "result") "items") "item"

/-- The `result?.total` read. -/
def totalPath (parsed : Json) : Option Json :=
  jsGet (jsGet (parsed.jGet "root") "result") "total"

/-- The `root?.status` read. -/
def statusPath (parsed : Json) : Option Json :=
  jsGet (parsed.jGet "root") "status"

/-- Claim C10 (amended): for every parsed value whose `root.result.items.item`
member is absent or falsy — including the `null` that `parseDbpiaXml` returns
for an empty input — and whose `root.result.total` and `root.status` members
are also absent or falsy, `normalizeDbpiaResponse` does not throw and returns
items `[]`, `raw_json` equal to the parsed input, and `meta.total` and
`meta.status` undefined.  (A truthy non-array `item` value instead makes the
source throw, and a truthy `total`/`status` survives into `meta`.) -/
theorem c10_normalizer_degenerate (parsed : Json) (target : String)
    (hitem : truthyO (rawItemsPath parsed) = false)
    (htotal : truthyO (totalPath parsed) = false)
    (hstatus : truthyO (statusPath parsed) = false) :
    normalizeDbpiaResponse parsed target = .ok ⟨[], parsed, ⟨none, none⟩⟩ := by
  unfold rawItemsPath at hitem
  unfold totalPath at htotal
  unfold statusPath at hstatus
  unfold normalizeDbpiaResponse
  rcases hi : jsGet (jsGet (jsGet (parsed.jGet "root") "result") "items") "item"
    with _ | v <;>
  rcases ht : jsGet (jsGet (parsed.jGet "root") "result") "total" with _ | t <;>
  rcases hs : jsGet (parsed.jGet "root") "status" with _ | st <;>
    rw [hi] at hitem <;> rw [ht] at htotal <;> rw [hs] at hstatus <;>
    simp_all [truthyO]

/-- Claim C10, counterexample: a parsed value carrying a truthy non-array
`root.result.items.item` (here the number 42) lacks an item array, yet
`normalizeDbpiaResponse` throws (`.map` on a non-array) instead of returning
an empty item list. -/
theorem c10_normalizer_degenerate_cex :
    normalizeDbpiaResponse
        (.obj [("root", .obj [("result",
          .obj [("items", .obj [("item", .num 42)])])])]) "se" =
      .error "TypeError: number.map is not a function" ∧
    rawItemsPath
        (.obj [("root", .obj [("result",
          .obj [("items", .obj [("item", .num 42)])])])]) = some (.num 42) := by
  exact ⟨by decide, by decide⟩

/-- Claim C10, witness: the amended theorem applied to the `null` value that
`parseDbpiaXml` returns for the empty input string. -/
theorem c10_normalizer_degenerate_witness :
    normalizeDbpiaResponse (parseDbpiaXml (fun _ => .obj []) "") "se" =
      .ok ⟨[], parseDbpiaXml (fun _ => .obj []) "", ⟨none, none⟩⟩ :=
  c10_normalizer_degenerate (parseDbpiaXml (fun _ => .obj []) "") "se"
    (by decide) (by decide) (by decide)

/-! ### C7 — upsert frame condition -/

/-- The row produced by the `ON CONFLICT(id) DO UPDATE` arm: exactly
title, authors, journal, pub_year, raw_json, updated_at are overwritten;
every other column (fulltext, pdf_path, download_status, downloaded_at —
and the key itself) is carried over from the existing row. -/
def updatedRow (now : Int) (r : ArticleRow) (a : NormalizedArticle) : ArticleRow :=
  { r with
    title := a.title
    authors := .arr a.authors
    journal := articleJournal a
    pub_year := articlePubYear a
    raw_json := a.raw_json
    updated_at := now }

theorem mem_upsertOne_of_ne {now : Int} {t : List ArticleRow}
    {a : NormalizedArticle} {r : ArticleRow} (hr : r ∈ t) (hne : r.id ≠ a.id) :
    r ∈ upsertOne now t a := by
  unfold upsertOne
  have hbeq : (r.id == a.id) = false := beq_eq_false_iff_ne.mpr hne
  split
  · exact List.mem_map.mpr ⟨r, hr, by simp [hbeq]⟩
  · exact List.mem_append_left _ hr

theorem mem_upsertOne_update {now : Int} {t : List ArticleRow}
    {a : NormalizedArticle} {r : ArticleRow} (hr : r ∈ t) (heq : a.id = r.id) :
    updatedRow now r a ∈ upsertOne now t a := by
  unfold upsertOne
  have hbeq : (r.id == a.id) = true := beq_iff_eq.mpr heq.symm
  have hany : t.any (fun x => x.id == a.id) = true :=
    List.any_eq_true.mpr ⟨r, hr, hbeq⟩
  rw [hany]
  simp only [if_true]
  exact List.mem_map.mpr ⟨r, hr, by rw [hbeq]; rfl⟩

theorem mem_upsertArticles_of_not_mem {now : Int} :
    ∀ (items : List NormalizedArticle) (t : List ArticleRow) (r : ArticleRow),
      r ∈ t → r.id ∉ items.map NormalizedArticle.id →
      r ∈ upsertArticles now t items := by
  intro items
  induction items with
  | nil => intro t r hr _; exact hr
  | cons b rest ih =>
    intro t r hr hni
    simp only [List.map_cons, List.mem_cons, not_or] at hni
    exact ih (upsertOne now t b) r (mem_upsertOne_of_ne hr hni.1) hni.2

theorem mem_upsertArticles_update {now : Int} :
    ∀ (items : List NormalizedArticle) (t : List ArticleRow) (r : ArticleRow)
      (a : NormalizedArticle),
      (items.map NormalizedArticle.id).Nodup → r ∈ t → a ∈ items → a.id = r.id →
      updatedRow now r a ∈ upsertArticles now t items := by
  intro items
  induction items with
  | nil => intro t r a _ _ ha _; cases ha
  | cons b rest ih =>
    intro t r a hni hr ha heq
    simp only [List.map_cons, List.nodup_cons] at hni
    rcases List.mem_cons.mp ha with hab | harest
    · subst hab
      have h1 := @mem_upsertOne_update now t a r hr heq
      have h2 : (updatedRow now r a).id ∉ rest.map NormalizedArticle.id := by
        show r.id ∉ _
        rw [← heq]
        exact hni.1
      exact mem_upsertArticles_of_not_mem rest _ _ h1 h2
    · have hbne : r.id ≠ b.id := fun h =>
        hni.1 (List.mem_map.mpr ⟨a, harest, heq.trans h⟩)
      exact ih (upsertOne now t b) r a hni.2 (mem_upsertOne_of_ne hr hbne) harest heq

/-- Claim C7: `upsertArticles` updates an existing row by overwriting only
title, authors, journal, pub_year, raw_json, updated_at (carrying every
other column — fulltext, pdf_path, download_status, downloaded_at — over
from the previous row value), and leaves rows whose ids are not among the
items untouched. -/
theorem c7_upsert_frame (now : Int) (t : List ArticleRow)
    (items : List NormalizedArticle)
    (hni : (items.map NormalizedArticle.id).Nodup) :
    (∀ r ∈ t, r.id ∉ items.map NormalizedArticle.id →
      r ∈ upsertArticles now t items) ∧
    (∀ r ∈ t, ∀ a ∈ items, a.id = r.id →
      updatedRow now r a ∈ upsertArticles now t items) ∧
    (∀ (r : ArticleRow) (a : NormalizedArticle),
      (updatedRow now r a).id = r.id ∧
      (updatedRow now r a).fulltext = r.fulltext ∧
      (updatedRow now r a).pdf_path = r.pdf_path ∧
      (updatedRow now r a).download_status = r.download_status ∧
      (updatedRow now r a).downloaded_at = r.downloaded_at ∧
      (updatedRow now r a).title = a.title ∧
      (updatedRow now r a).updated_at = now) := by
  exact ⟨fun r hr => mem_upsertArticles_of_not_mem items t r hr,
    fun r hr a ha heq => mem_upsertArticles_update items t r a hni hr ha heq,
    fun r a => ⟨rfl, rfl, rfl, rfl, rfl, rfl, rfl⟩⟩

/-- Claim C7, witness: a two-row table where one row (with download state
set) is updated by an item and the other row's id is absent from the items:
the updated row keeps its fulltext/pdf_path/download_status/downloaded_at,
and the untouched row survives unchanged. -/
theorem c7_upsert_frame_witness :
    (⟨"K2", .str "t2", .arr [], .null, none, .null, 0,
        none, none, none, none⟩ : ArticleRow) ∈
      upsertArticles 99
        [⟨"K1", .str "t1", .arr [], .null, none, .null, 0,
          some "body", some "/p.pdf", some "downloaded", some 5⟩,
         ⟨"K2", .str "t2", .arr [], .null, none, .null, 0,
          none, none, none, none⟩]
        [⟨⟨.str "T", [], none, none, none, none, [], .null, .obj []⟩, "K1"⟩] ∧
    updatedRow 99
        ⟨"K1", .str "t1", .arr [], .null, none, .null, 0,
          some "body", some "/p.pdf", some "downloaded", some 5⟩
        ⟨⟨.str "T", [], none, none, none, none, [], .null, .obj []⟩, "K1"⟩ ∈
      upsertArticles 99
        [⟨"K1", .str "t1", .arr [], .null, none, .null, 0,
          some "body", some "/p.pdf", some "downloaded", some 5⟩,
         ⟨"K2", .str "t2", .arr [], .null, none, .null, 0,
          none, none, none, none⟩]
        [⟨⟨.str "T", [], none, none, none, none, [], .null, .obj []⟩, "K1"⟩] := by
  constructor
  · exact (c7_upsert_frame 99 _ _ (by decide)).1 _ (by decide) (by decide)
  · exact (c7_upsert_frame 99 _ _ (by decide)).2.1 _ (by decide) _ (by decide)
      (by decide)

/-! ### C1 — cache transparency -/

theorem decodeArticle_encodeArticle (a : NormalizedArticle) :
    decodeArticle (encodeArticle a) = a := by
  obtain ⟨⟨t, au, y, p, u, pu, k, ab, rj⟩, i⟩ := a
  cases y <;> cases p <;> cases u <;> cases pu <;> rfl

theorem decode_encode_id : decodeArticle ∘ encodeArticle = id :=
  funext decodeArticle_encodeArticle

/-- `JSON.parse(JSON.stringify(result))`, read back as the TS code reads it,
is the identity on normalization results: the members dropped because they
were `undefined` come back as `undefined` reads. -/
theorem decodeResult_encodeResult (r : NormalizationResult) :
    decodeResult (encodeResult r) = r := by
  obtain ⟨items, rj, tot, st⟩ := r
  rcases st with _ | ⟨c, m⟩ <;> cases tot <;>
    simp [decodeResult, encodeResult, Json.jGet, jsGet, List.lookup,
      List.map_map, decode_encode_id, Json.truthy]

theorem find?_set_mem (now now2 : Int) (rec : CachedQueryInput)
    (h : now2 < rec.expires_at) :
    ∀ cache : List CachedQuery,
      cache.any (fun r => r.cache_key == rec.cache_key) = true →
      (cache.map (fun r =>
        if r.cache_key == rec.cache_key then
          (⟨rec.cache_key, rec.tool, rec.params_json, rec.result_json, now,
            rec.expires_at⟩ : CachedQuery)
        else r)).find?
          (fun r => r.cache_key == rec.cache_key && decide (now2 < r.expires_at)) =
        some ⟨rec.cache_key, rec.tool, rec.params_json, rec.result_json, now,
          rec.expires_at⟩ := by
  intro cache
  induction cache with
  | nil => intro h0; simp at h0
  | cons c rest ih =>
    intro hany
    simp only [List.map_cons]
    by_cases hc : (c.cache_key == rec.cache_key) = true
    · rw [if_pos hc]
      rw [List.find?_cons_of_pos]
      simp [h]
    · rw [if_neg hc]
      rw [List.find?_cons_of_neg]
      · apply ih
        simpa [hc] using hany
      · simp [hc]

theorem find?_set_append (now now2 : Int) (rec : CachedQueryInput)
    (h : now2 < rec.expires_at) :
    ∀ cache : List CachedQuery,
      cache.any (fun r => r.cache_key == rec.cache_key) = false →
      (cache ++ [(⟨rec.cache_key, rec.tool, rec.params_json, rec.result_json, now,
          rec.expires_at⟩ : CachedQuery)]).find?
          (fun r => r.cache_key == rec.cache_key && decide (now2 < r.expires_at)) =
        some ⟨rec.cache_key, rec.tool, rec.params_json, rec.result_json, now,
          rec.expires_at⟩ := by
  intro cache
  induction cache with
  | nil =>
    intro _
    simp only [List.nil_append]
    rw [List.find?_cons_of_pos]
    simp [h]
  | cons c rest ih =>
    intro hany
    simp only [Bool.not_eq_true, List.any_cons, Bool.or_eq_false_iff] at hany
    simp only [List.cons_append]
    rw [List.find?_cons_of_neg]
    · exact ih hany.2
    · simp [hany.1]

/-- A `setCachedQuery` upsert followed by a `getCachedQuery` read of the
same key, before the written `expires_at`, returns exactly the written
record (with `fetched_at` stamped at write time). -/
theorem getCachedQuery_after_set (now now2 : Int) (cache : List CachedQuery)
    (rec : CachedQueryInput) (h : now2 < rec.expires_at) :
    getCachedQuery (setCachedQuery now cache rec) rec.cache_key now2 =
      some ⟨rec.cache_key, rec.tool, rec.params_json, rec.result_json, now,
        rec.expires_at⟩ := by
  unfold getCachedQuery setCachedQuery
  by_cases hany : cache.any (fun r => r.cache_key == rec.cache_key) = true
  · rw [if_pos hany]
    exact find?_set_mem now now2 rec h cache hany
  · rw [if_neg hany]
    exact find?_set_append now now2 rec h cache (by simpa using hany)

/-- Claim C1: a successful non-refresh `runQuery` that misses the cache,
fetches, normalizes and persists, followed by the same call (same tool,
target, params, page, pagecount; `refresh` falsy) before the written
expiry, performs no network fetch the second time and returns a result
equal (after JSON round-trip) to the first call's result, on an unchanged
store. -/
theorem c1_cache_transparency
    (fetchXml : List (String × Json) → Except (String × String) String)
    (parserOut : String → Json) (envApiKey : Option String)
    (envTtlDays : Option Int) (now now2 : Int) (opts : RunQueryOptions)
    (db : Store) (xml : String) (r : NormalizationResult)
    (hrefresh : opts.refresh = false)
    (hmiss : getCachedQuery db.queryCache
      (makeCacheKey opts.tool opts.target opts.params opts.page opts.pagecount)
      now = none)
    (hfetch : fetchXml (assembleQueryParams opts envApiKey) = .ok xml)
    (hnorm : normalizeDbpiaResponse (parseDbpiaXml parserOut xml) opts.target =
      .ok r)
    (hexp : now2 < computeExpiresAt now (envTtlDays.getD 7)) :
    ∃ db' : Store,
      runQuery fetchXml parserOut envApiKey envTtlDays now opts db =
        .ok (r, db', true) ∧
      runQuery fetchXml parserOut envApiKey envTtlDays now2 opts db' =
        .ok (r, db', false) := by
  refine ⟨⟨upsertArticles now db.articles r.items,
    setCachedQuery now db.queryCache
      ⟨makeCacheKey opts.tool opts.target opts.params opts.page opts.pagecount,
       opts.tool, .obj opts.params, encodeResult r,
       computeExpiresAt now (envTtlDays.getD 7)⟩⟩, ?_, ?_⟩
  · unfold runQuery
    simp only [hrefresh, Bool.false_eq_true, if_false, hmiss, hfetch, hnorm]
  · unfold runQuery
    have hget := getCachedQuery_after_set now now2 db.queryCache
      ⟨makeCacheKey opts.tool opts.target opts.params opts.page opts.pagecount,
       opts.tool, .obj opts.params, encodeResult r,
       computeExpiresAt now (envTtlDays.getD 7)⟩ hexp
    simp only [hrefresh, Bool.false_eq_true, if_false, hget,
      decodeResult_encodeResult]

/-- Claim C1, witness: the theorem applied to a concrete empty store, a
fetch oracle returning a fixed body whose parse is degenerate, and
`now2 = now` (a 7-day default TTL). -/
theorem c1_cache_transparency_witness :
    ∃ db' : Store,
      runQuery (fun _ => .ok "<x/>") (fun _ => .null) none none 0
        ⟨"search", "se", [], none, none, false, none⟩ ⟨[], []⟩ =
        .ok (⟨[], .null, ⟨none, none⟩⟩, db', true) ∧
      runQuery (fun _ => .ok "<x/>") (fun _ => .null) none none 0
        ⟨"search", "se", [], none, none, false, none⟩ db' =
        .ok (⟨[], .null, ⟨none, none⟩⟩, db', false) :=
  c1_cache_transparency (fun _ => .ok "<x/>") (fun _ => .null) none none 0 0
    ⟨"search", "se", [], none, none, false, none⟩ ⟨[], []⟩ "<x/>"
    ⟨[], .null, ⟨none, none⟩⟩ rfl rfl rfl (by decide) (by decide)

/-! ### C3, C9 — write mutex -/

/-- The inductive invariant of the mutex transition system: at most one
holder; unlocked means idle with an empty queue; and the acquire-call
history is exactly the grant history followed by the current queue (so
grants happen in strict FIFO arrival order). -/
def MutexInv (s : MutexState) : Prop :=
  s.running.length ≤ 1 ∧
  (s.locked = false → s.running = [] ∧ s.queue = []) ∧
  s.arrivals = s.granted ++ s.queue

theorem mutexInv_init : MutexInv .init := by
  refine ⟨by simp [MutexState.init], fun _ => ⟨rfl, rfl⟩, rfl⟩

theorem running_eq_of_mem {s : MutexState} (h1 : s.running.length ≤ 1)
    {t : Nat} (hm : t ∈ s.running) : s.running = [t] := by
  cases hr : s.running with
  | nil => rw [hr] at hm; cases hm
  | cons x rest =>
    rw [hr] at hm h1
    cases rest with
    | nil =>
      rcases List.mem_singleton.mp hm with h
      rw [h]
    | cons y r2 => simp at h1

theorem mutexInv_step (s : MutexState) (e : MutexEvent) (h : MutexInv s) :
    MutexInv (mutexStep s e) := by
  obtain ⟨h1, h2, h3⟩ := h
  cases e with
  | acquire t =>
    by_cases hl : s.locked = true
    · simp only [mutexStep, hl, if_true]
      refine ⟨h1, by simp [hl], ?_⟩
      simp [h3, List.append_assoc]
    · have hempty := h2 (by simpa using hl)
      simp only [mutexStep, hl, if_false]
      refine ⟨?_, by simp, ?_⟩
      · simp [hempty.1]
      · simp [h3, hempty.2]
  | release t =>
    by_cases hm : t ∈ s.running
    · have hrun : s.running = [t] := running_eq_of_mem h1 hm
      have hl : s.locked = true := by
        by_contra hc
        have := (h2 (by simpa using hc)).1
        rw [this] at hm
        cases hm
      cases hq : s.queue with
      | nil =>
        simp only [mutexStep, hm, if_true, hq]
        refine ⟨by simp [hrun], fun _ => ⟨by simp [hrun], rfl⟩, ?_⟩
        simpa [hq] using h3
      | cons n rest =>
        simp only [mutexStep, hm, if_true, hq]
        refine ⟨by simp [hrun], by simp [hl], ?_⟩
        simp only [h3, hq]
        simp
    · simp only [mutexStep, hm, if_false]
      exact ⟨h1, h2, h3⟩

theorem mutexInv_fold (events : List MutexEvent) :
    ∀ s : MutexState, MutexInv s → MutexInv (events.foldl mutexStep s) := by
  induction events with
  | nil => exact fun s h => h
  | cons e rest ih => exact fun s h => ih (mutexStep s e) (mutexInv_step s e h)

/-- Claim C3: in every state reachable by any sequence of acquire/release
events, at most one task holds the lock (task bodies never interleave), and
the acquire-arrival history equals the grant history followed by the
still-waiting queue — i.e. the lock is granted in strictly FIFO arrival
order, so the mutex-guarded persistence sequences of concurrent `runQuery`
calls are totally ordered. -/
theorem c3_mutex_exclusion_fifo (events : List MutexEvent) :
    (mutexRun events).running.length ≤ 1 ∧
    (mutexRun events).arrivals =
      (mutexRun events).granted ++ (mutexRun events).queue :=
  ⟨(mutexInv_fold events .init mutexInv_init).1,
   (mutexInv_fold events .init mutexInv_init).2.2⟩

/-- Claim C9: `runExclusive` with a failing body re-raises the error but
still releases (the `finally`): the holder leaves `running`; if the queue
was empty the mutex unlocks and a later acquire is granted immediately; if
a task was queued, it is granted the lock next. -/
theorem c9_mutex_error_release {α : Type} (s : MutexState) (t : Nat) (e : String)
    (hheld : s.running = [t]) (hqt : t ∉ s.queue.head?.toList) :
    (runExclusiveOnHeld s t (Except.error e : Except String α)).1 = .error e ∧
    (let s2 := (runExclusiveOnHeld s t (Except.error e : Except String α)).2
     t ∉ s2.running ∧
     (s.queue = [] → s2.locked = false ∧ s2.running = [] ∧
       ∀ u : Nat, (mutexStep s2 (.acquire u)).running = [u]) ∧
     (∀ n rest, s.queue = n :: rest →
       s2.running = [n] ∧ s2.granted = s.granted ++ [n] ∧ s2.queue = rest)) := by
  have hm : t ∈ s.running := by rw [hheld]; exact List.mem_singleton.mpr rfl
  refine ⟨rfl, ?_, ?_, ?_⟩
  · show t ∉ (mutexStep s (.release t)).running
    cases hq : s.queue with
    | nil => simp [mutexStep, hm, hq, hheld]
    | cons n rest =>
      have hne : t ≠ n := by
        rw [hq] at hqt
        simpa using hqt
      simp [mutexStep, hm, hq, hheld, hne]
  · intro hq
    refine ⟨by simp [runExclusiveOnHeld, mutexStep, hm, hq],
      by simp [runExclusiveOnHeld, mutexStep, hm, hq, hheld], ?_⟩
    intro u
    simp [runExclusiveOnHeld, mutexStep, hm, hq, hheld]
  · intro n rest hq
    refine ⟨by simp [runExclusiveOnHeld, mutexStep, hm, hq, hheld], ?_, ?_⟩
    · simp [runExclusiveOnHeld, mutexStep, hm, hq]
    · simp [runExclusiveOnHeld, mutexStep, hm, hq]

/-- Claim C9, witness: a failing body on a held mutex with one queued
acquirer — the error is re-raised, the holder is out, the queued task 7
is granted. -/
theorem c9_mutex_error_release_witness :
    (runExclusiveOnHeld ⟨true, [7], [3], [3], [3, 7]⟩ 3
      (Except.error "boom" : Except String Unit)).1 = .error "boom" ∧
    3 ∉ (runExclusiveOnHeld ⟨true, [7], [3], [3], [3, 7]⟩ 3
      (Except.error "boom" : Except String Unit)).2.running ∧
    (runExclusiveOnHeld ⟨true, [7], [3], [3], [3, 7]⟩ 3
      (Except.error "boom" : Except String Unit)).2.running = [7] := by
  have h := c9_mutex_error_release (α := Unit)
    ⟨true, [7], [3], [3], [3, 7]⟩ 3 "boom" (by decide) (by decide)
  exact ⟨h.1, h.2.1, (h.2.2.2 7 [] rfl).1⟩

/-! ### C4, C6 — sliding-window rate limiter -/

/-- The inductive invariant of the limiter, relative to a lower bound `T`
on the last event time: `timestamps` is the admission-time history above
some cutoff at least one window old; admission times never exceed `T`; no
trailing window contains more than `limit` admissions; and the enqueue
history is exactly the queue-admission history followed by the current
queue (FIFO). -/
def RLInv (cfg : RLConfig) (T : Int) (s : RLState) : Prop :=
  (∃ cut : Int, cut ≤ T - cfg.windowMs ∧
    s.timestamps = (s.admitted.map Prod.snd).filter (fun t => decide (cut < t))) ∧
  (∀ t ∈ s.admitted.map Prod.snd, t ≤ T) ∧
  (∀ Tq : Int, rlCountWin cfg (s.admitted.map Prod.snd) Tq ≤ cfg.limit) ∧
  s.enqHistory = s.admittedFromQueue ++ s.queue.map Prod.fst

theorem rlInv_init (cfg : RLConfig) (T : Int) : RLInv cfg T RLState.init := by
  refine ⟨⟨T - cfg.windowMs, le_refl _, rfl⟩, ?_, ?_, rfl⟩
  · intro t ht; cases ht
  · intro Tq; simp [rlCountWin, RLState.init]

theorem rlCleanup_filterform (cfg : RLConfig) {cut now : Int} (admT : List Int)
    (hcut : cut ≤ now - cfg.windowMs) :
    rlCleanup cfg now (admT.filter (fun t => decide (cut < t))) =
      admT.filter (fun t => decide (now - cfg.windowMs < t)) := by
  unfold rlCleanup
  rw [List.filter_filter]
  apply List.filter_congr
  intro t _
  by_cases h : now - cfg.windowMs < t
  · have : cut < t := lt_of_le_of_lt hcut h
    simp [h, this]
  · simp [h]

theorem rlCountWin_push (cfg : RLConfig) {now : Int} (admT : List Int)
    (hbound : ∀ Tq, rlCountWin cfg admT Tq ≤ cfg.limit)
    (hlen : (admT.filter (fun t => decide (now - cfg.windowMs < t))).length <
      cfg.limit) :
    ∀ Tq, rlCountWin cfg (admT ++ [now]) Tq ≤ cfg.limit := by
  intro Tq
  unfold rlCountWin at hbound ⊢
  rw [List.countP_append]
  by_cases h4 : Tq - cfg.windowMs < now
  · by_cases h5 : now ≤ Tq
    · have h1 : admT.countP
          (fun t => decide (Tq - cfg.windowMs < t) && decide (t ≤ Tq)) ≤
          admT.countP (fun t => decide (now - cfg.windowMs < t)) := by
        apply List.countP_mono_left
        intro t _ hp
        simp only [Bool.and_eq_true, decide_eq_true_eq] at hp
        simp only [decide_eq_true_eq]
        omega
      have h3 : admT.countP (fun t => decide (now - cfg.windowMs < t)) <
          cfg.limit := by
        rw [List.countP_eq_length_filter]
        exact hlen
      have h2 : List.countP
          (fun t => decide (Tq - cfg.windowMs < t) && decide (t ≤ Tq)) [now] ≤ 1 :=
        le_trans (List.countP_le_length _) (by simp)
      omega
    · have h2 : List.countP
          (fun t => decide (Tq - cfg.windowMs < t) && decide (t ≤ Tq)) [now] = 0 := by
        simp [List.countP_cons, h5]
      rw [h2]
      simpa using hbound Tq
  · have h2 : List.countP
        (fun t => decide (Tq - cfg.windowMs < t) && decide (t ≤ Tq)) [now] = 0 := by
      simp [List.countP_cons, h4]
    rw [h2]
    simpa using hbound Tq

theorem rlDrainLoop_inv (cfg : RLConfig) (hw : 0 < cfg.windowMs) (now : Int) :
    ∀ (q : List (Nat × Int)) (adm : List (Nat × Int)) (admQ : List Nat),
      (∀ t ∈ adm.map Prod.snd, t ≤ now) →
      (∀ Tq, rlCountWin cfg (adm.map Prod.snd) Tq ≤ cfg.limit) →
      (rlDrainLoop cfg now
          ((adm.map Prod.snd).filter (fun t => decide (now - cfg.windowMs < t)))
          q adm admQ).timestamps =
        (((rlDrainLoop cfg now
            ((adm.map Prod.snd).filter (fun t => decide (now - cfg.windowMs < t)))
            q adm admQ).admitted.map Prod.snd).filter
          (fun t => decide (now - cfg.windowMs < t))) ∧
      (∀ t ∈ (rlDrainLoop cfg now
          ((adm.map Prod.snd).filter (fun t => decide (now - cfg.windowMs < t)))
          q adm admQ).admitted.map Prod.snd, t ≤ now) ∧
      (∀ Tq, rlCountWin cfg ((rlDrainLoop cfg now
          ((adm.map Prod.snd).filter (fun t => decide (now - cfg.windowMs < t)))
          q adm admQ).admitted.map Prod.snd) Tq ≤ cfg.limit) ∧
      admQ ++ q.map Prod.fst =
        (rlDrainLoop cfg now
          ((adm.map Prod.snd).filter (fun t => decide (now - cfg.windowMs < t)))
          q adm admQ).admittedFromQueue ++
        ((rlDrainLoop cfg now
          ((adm.map Prod.snd).filter (fun t => decide (now - cfg.windowMs < t)))
          q adm admQ).queue.map Prod.fst) := by
  intro q
  induction q with
  | nil =>
    intro adm admQ hle hbound
    exact ⟨rfl, hle, hbound, by simp [rlDrainLoop]⟩
  | cons p rest ih =>
    intro adm admQ hle hbound
    obtain ⟨id, t0⟩ := p
    by_cases hfree :
      ((adm.map Prod.snd).filter
        (fun t => decide (now - cfg.windowMs < t))).length < cfg.limit
    · have hfform :
          (adm.map Prod.snd).filter (fun t => decide (now - cfg.windowMs < t)) ++
            [now] =
          ((adm ++ [(id, now)]).map Prod.snd).filter
            (fun t => decide (now - cfg.windowMs < t)) := by
        rw [List.map_append, List.filter_append]
        simp [hw]
      have hstep :
          rlDrainLoop cfg now
            ((adm.map Prod.snd).filter (fun t => decide (now - cfg.windowMs < t)))
            ((id, t0) :: rest) adm admQ =
          rlDrainLoop cfg now
            (((adm ++ [(id, now)]).map Prod.snd).filter
              (fun t => decide (now - cfg.windowMs < t)))
            rest (adm ++ [(id, now)]) (admQ ++ [id]) := by
        rw [rlDrainLoop]
        rw [if_pos hfree, hfform]
      rw [hstep]
      have hle' : ∀ t ∈ (adm ++ [(id, now)]).map Prod.snd, t ≤ now := by
        intro t ht
        rw [List.map_append] at ht
        rcases List.mem_append.mp ht with h | h
        · exact hle t h
        · simp at h; omega
      have hbound' : ∀ Tq,
          rlCountWin cfg ((adm ++ [(id, now)]).map Prod.snd) Tq ≤ cfg.limit := by
        intro Tq
        rw [List.map_append]
        exact rlCountWin_push cfg (adm.map Prod.snd) hbound hfree Tq
      have hrec := ih (adm ++ [(id, now)]) (admQ ++ [id]) hle' hbound'
      refine ⟨hrec.1, hrec.2.1, hrec.2.2.1, ?_⟩
      have := hrec.2.2.2
      simpa [List.append_assoc] using this
    · have hstop :
          rlDrainLoop cfg now
            ((adm.map Prod.snd).filter (fun t => decide (now - cfg.windowMs < t)))
            ((id, t0) :: rest) adm admQ =
          ⟨(adm.map Prod.snd).filter (fun t => decide (now - cfg.windowMs < t)),
            (id, t0) :: rest, adm, admQ⟩ := by
        rw [rlDrainLoop]
        rw [if_neg hfree]
      rw [hstop]
      exact ⟨rfl, hle, hbound, rfl⟩

theorem rlProcessQueue_inv (cfg : RLConfig) (hw : 0 < cfg.windowMs)
    {T now : Int} (hT : T ≤ now) (s : RLState) (h : RLInv cfg T s) :
    RLInv cfg now (rlProcessQueue cfg now s) := by
  obtain ⟨⟨cut, hcut, hts⟩, hle, hbound, hfifo⟩ := h
  have hclean : rlCleanup cfg now s.timestamps =
      (s.admitted.map Prod.snd).filter
        (fun t => decide (now - cfg.windowMs < t)) := by
    rw [hts]
    exact rlCleanup_filterform cfg _ (by omega)
  have hle' : ∀ t ∈ s.admitted.map Prod.snd, t ≤ now :=
    fun t ht => le_trans (hle t ht) hT
  have hd := rlDrainLoop_inv cfg hw now s.queue s.admitted s.admittedFromQueue
    hle' hbound
  simp only [rlProcessQueue]
  rw [hclean]
  exact ⟨⟨now - cfg.windowMs, le_refl _, hd.1⟩, hd.2.1, hd.2.2.1,
    hfifo.trans hd.2.2.2⟩

theorem rlAcquire_inv (cfg : RLConfig) (hw : 0 < cfg.windowMs) {T now : Int}
    (hT : T ≤ now) (id : Nat) (s : RLState) (h : RLInv cfg T s) :
    RLInv cfg now (rlAcquire cfg id now s).2 := by
  obtain ⟨⟨cut, hcut, hts⟩, hle, hbound, hfifo⟩ := h
  have hclean : rlCleanup cfg now s.timestamps =
      (s.admitted.map Prod.snd).filter
        (fun t => decide (now - cfg.windowMs < t)) := by
    rw [hts]
    exact rlCleanup_filterform cfg _ (by omega)
  have hle' : ∀ t ∈ s.admitted.map Prod.snd, t ≤ now :=
    fun t ht => le_trans (hle t ht) hT
  simp only [rlAcquire]
  rw [hclean]
  by_cases hfast :
      ((s.admitted.map Prod.snd).filter
        (fun t => decide (now - cfg.windowMs < t))).length < cfg.limit ∧
      s.queue = []
  · rw [if_pos hfast]
    refine ⟨⟨now - cfg.windowMs, le_refl _, ?_⟩, ?_, ?_, hfifo⟩
    · rw [List.map_append, List.filter_append]
      simp [hw]
    · intro t ht
      rw [List.map_append] at ht
      rcases List.mem_append.mp ht with h1 | h1
      · exact hle' t h1
      · simp at h1
        omega
    · intro Tq
      rw [List.map_append]
      exact rlCountWin_push cfg _ hbound hfast.1 Tq
  · rw [if_neg hfast]
    by_cases hrej : cfg.maxQueueDelayMs <
        rlEstimatedWait cfg
          ((s.admitted.map Prod.snd).filter
            (fun t => decide (now - cfg.windowMs < t)))
          s.queue.length now
    · rw [if_pos hrej]
      exact ⟨⟨now - cfg.windowMs, le_refl _, rfl⟩, hle', hbound, hfifo⟩
    · rw [if_neg hrej]
      refine rlProcessQueue_inv cfg hw (le_refl now) _
        ⟨⟨now - cfg.windowMs, le_refl _, rfl⟩, hle', hbound, ?_⟩
      show s.enqHistory ++ [id] =
        s.admittedFromQueue ++ ((s.queue ++ [(id, now)]).map Prod.fst)
      rw [List.map_append, hfifo, List.append_assoc]
      rfl

theorem rlStep_inv (cfg : RLConfig) (hw : 0 < cfg.windowMs) {T : Int}
    (s : RLState) (h : RLInv cfg T s) (e : RLEvent) (hT : T ≤ e.time) :
    RLInv cfg e.time (rlStep cfg s e) := by
  cases e with
  | acquire id now => exact rlAcquire_inv cfg hw hT id s h
  | timer now => exact rlProcessQueue_inv cfg hw hT s h

theorem rlInv_fold (cfg : RLConfig) (hw : 0 < cfg.windowMs) :
    ∀ (events : List RLEvent) (s : RLState) (T : Int),
      RLInv cfg T s → List.Chain (· ≤ ·) T (events.map RLEvent.time) →
      ∃ Tf : Int, RLInv cfg Tf (events.foldl (rlStep cfg) s) := by
  intro events
  induction events with
  | nil => exact fun s T h _ => ⟨T, h⟩
  | cons e rest ih =>
    intro s T h hchain
    rw [List.map_cons] at hchain
    rcases List.chain_cons.mp hchain with ⟨h1, h2⟩
    exact ih (rlStep cfg s e) e.time (rlStep_inv cfg hw s h e h1) h2

/-- Claim C4: along any acquire/timer trace with non-decreasing event
times, the number of recorded admission timestamps inside any trailing
`windowMs` interval never exceeds `limit`, and the enqueue history always
equals the queue-admission history followed by the current queue — queued
callers are admitted in strictly FIFO arrival order (the fast path admits
only when the queue is empty). -/
theorem c4_rate_limiter_window (cfg : RLConfig) (events : List RLEvent)
    (T0 Tq : Int) (hw : 0 < cfg.windowMs)
    (hmono : List.Chain (· ≤ ·) T0 (events.map RLEvent.time)) :
    rlCountWin cfg ((rlRun cfg events).admitted.map Prod.snd) Tq ≤ cfg.limit ∧
    (rlRun cfg events).enqHistory =
      (rlRun cfg events).admittedFromQueue ++
        ((rlRun cfg events).queue.map Prod.fst) := by
  obtain ⟨Tf, hf⟩ := rlInv_fold cfg hw events RLState.init T0
    (rlInv_init cfg T0) hmono
  exact ⟨hf.2.2.1 Tq, hf.2.2.2⟩

/-- Claim C4, witness: a limit-1 limiter with an admit at `t=5`, a queued
caller at `t=6`, and a timer drain at `t=1006` — the trailing second ending
at `t=1006` holds one admission, and the queued order was preserved. -/
theorem c4_rate_limiter_window_witness :
    rlCountWin ⟨1, 1000, 10000⟩
      ((rlRun ⟨1, 1000, 10000⟩
        [.acquire 1 5, .acquire 2 6, .timer 1006]).admitted.map Prod.snd)
      1006 ≤ 1 ∧
    (rlRun ⟨1, 1000, 10000⟩
      [.acquire 1 5, .acquire 2 6, .timer 1006]).enqHistory =
      (rlRun ⟨1, 1000, 10000⟩
        [.acquire 1 5, .acquire 2 6, .timer 1006]).admittedFromQueue ++
      ((rlRun ⟨1, 1000, 10000⟩
        [.acquire 1 5, .acquire 2 6, .timer 1006]).queue.map Prod.fst) :=
  c4_rate_limiter_window ⟨1, 1000, 10000⟩
    [.acquire 1 5, .acquire 2 6, .timer 1006] 0 1006
    (by decide)
    (.cons (by decide) (.cons (by decide) (.cons (by decide) .nil)))

/-- Claim C6: when `acquire` cannot admit immediately, it computes the
wait estimate from the cleaned timestamps and the caller's queue position
(`timestamps[queueIndex % limit] || timestamps[0]` plus one window per
`limit` queued positions); the call throws `RateLimiterError` if and only
if that estimate exceeds `maxQueueDelayMs` (default 10000), and on
rejection nothing is enqueued, nothing is admitted, and a task passed to
`schedule` is not run. -/
theorem c6_admission_control (cfg : RLConfig) (id : Nat) (now : Int)
    (s : RLState)
    (hslow : ¬((rlCleanup cfg now s.timestamps).length < cfg.limit ∧
      s.queue = [])) :
    defaultMaxQueueDelayMs = 10000 ∧
    ((cfg.maxQueueDelayMs <
        rlEstimatedWait cfg (rlCleanup cfg now s.timestamps) s.queue.length now) ↔
      (rlAcquire cfg id now s).1 = .rejected
        (rlEstimatedWait cfg (rlCleanup cfg now s.timestamps)
          s.queue.length now)) ∧
    (cfg.maxQueueDelayMs <
        rlEstimatedWait cfg (rlCleanup cfg now s.timestamps) s.queue.length now →
      (rlAcquire cfg id now s).2.queue = s.queue ∧
      (rlAcquire cfg id now s).2.admitted = s.admitted ∧
      (rlAcquire cfg id now s).2.enqHistory = s.enqHistory ∧
      (rlSchedule cfg id now s).1 = false) := by
  refine ⟨rfl, ?_, ?_⟩
  · constructor
    · intro hrej
      simp only [rlAcquire]
      rw [if_neg hslow, if_pos hrej]
    · intro hres
      by_contra hnot
      simp only [rlAcquire] at hres
      rw [if_neg hslow, if_neg hnot] at hres
      cases hres
  · intro hrej
    have hacq : rlAcquire cfg id now s =
        (.rejected (rlEstimatedWait cfg (rlCleanup cfg now s.timestamps)
            s.queue.length now),
          { s with
            timestamps := rlCleanup cfg now s.timestamps
            rejected := s.rejected ++ [id] }) := by
      simp only [rlAcquire]
      rw [if_neg hslow, if_pos hrej]
    refine ⟨by rw [hacq], by rw [hacq], by rw [hacq], ?_⟩
    unfold rlSchedule
    rw [hacq]

/-- Claim C6, witness: a limit-1, 500ms-max-delay limiter with one admission
recorded at `t=5`: a second acquire at `t=5` estimates a 1000ms wait, is
rejected without being enqueued, and its scheduled task does not run. -/
theorem c6_admission_control_witness :
    (rlAcquire ⟨1, 1000, 500⟩ 2 5 ⟨[5], [], [(1, 5)], [], [], []⟩).1 =
      .rejected 1000 ∧
    (rlAcquire ⟨1, 1000, 500⟩ 2 5 ⟨[5], [], [(1, 5)], [], [], []⟩).2.queue =
      [] ∧
    (rlSchedule ⟨1, 1000, 500⟩ 2 5 ⟨[5], [], [(1, 5)], [], [], []⟩).1 =
      false := by
  have h := c6_admission_control ⟨1, 1000, 500⟩ 2 5
    ⟨[5], [], [(1, 5)], [], [], []⟩ (by decide)
  refine ⟨?_, ?_, ?_⟩
  · exact (h.2.1.mp (by decide)).trans (by decide)
  · exact (h.2.2 (by decide)).1
  · exact (h.2.2 (by decide)).2.2.2

/-! ### C5 — transport retry policy -/

/-- The retry-loop specification relative to a starting attempt index:
bounded tries, exponential sleeps, every non-final attempt failed
retryably, and the final outcome is the final attempt's outcome. -/
def FetchSpec (oracle : Nat → AttemptOutcome) (backoff : Int)
    (attempt remaining : Nat) : Prop :=
  (fetchGo oracle backoff attempt remaining).tries ≤ remaining + 1 ∧
  1 ≤ (fetchGo oracle backoff attempt remaining).tries ∧
  (fetchGo oracle backoff attempt remaining).sleeps =
    (List.range ((fetchGo oracle backoff attempt remaining).tries - 1)).map
      (fun i => backoff * 2 ^ (attempt + i)) ∧
  (∀ i, i < (fetchGo oracle backoff attempt remaining).tries - 1 →
    shouldRetry (oracle (attempt + i)) = true ∧
    ∀ xml, oracle (attempt + i) ≠ .success xml) ∧
  (∀ o, (fetchGo oracle backoff attempt remaining).result = .error o →
    o = oracle (attempt + ((fetchGo oracle backoff attempt remaining).tries - 1))) ∧
  (∀ xml, (fetchGo oracle backoff attempt remaining).result = .ok xml →
    oracle (attempt + ((fetchGo oracle backoff attempt remaining).tries - 1)) =
      .success xml)

theorem fetchSpec_of_stop (oracle : Nat → AttemptOutcome) (backoff : Int)
    (attempt remaining : Nat) (o : AttemptOutcome)
    (ho : oracle attempt = o)
    (heq : fetchGo oracle backoff attempt remaining = ⟨.error o, 1, []⟩) :
    FetchSpec oracle backoff attempt remaining := by
  unfold FetchSpec
  rw [heq]
  refine ⟨by show (1 : Nat) ≤ remaining + 1; omega, le_refl _, by simp, ?_, ?_,
    ?_⟩
  · intro i hi
    simp at hi
  · intro o' h
    simp at h
    simp [h, ho]
  · intro xml h
    simp at h

theorem fetchSpec_retry (oracle : Nat → AttemptOutcome) (backoff : Int)
    (attempt r : Nat) (hrest : FetchSpec oracle backoff (attempt + 1) r)
    (o : AttemptOutcome) (ho : oracle attempt = o) (hsr : shouldRetry o = true)
    (heq : fetchGo oracle backoff attempt (r + 1) =
      ⟨(fetchGo oracle backoff (attempt + 1) r).result,
       (fetchGo oracle backoff (attempt + 1) r).tries + 1,
       backoff * 2 ^ attempt :: (fetchGo oracle backoff (attempt + 1) r).sleeps⟩) :
    FetchSpec oracle backoff attempt (r + 1) := by
  obtain ⟨h1, h2, h3, h4, h5, h6⟩ := hrest
  have hnos : ∀ xml, o ≠ .success xml := by
    intro xml hx
    rw [hx] at hsr
    have hfalse : shouldRetry (.success xml) = false := rfl
    rw [hfalse] at hsr
    cases hsr
  unfold FetchSpec
  rw [heq]
  simp only []
  refine ⟨by omega, by omega, ?_, ?_, ?_, ?_⟩
  · have ht : (fetchGo oracle backoff (attempt + 1) r).tries + 1 - 1 =
        ((fetchGo oracle backoff (attempt + 1) r).tries - 1) + 1 := by omega
    rw [ht, List.range_succ_eq_map]
    simp only [List.map_cons, List.map_map, Nat.add_zero, Function.comp]
    rw [h3]
    congr 1
    apply List.map_congr_left
    intro i _
    simp only [Function.comp_apply]
    have he : attempt + 1 + i = attempt + Nat.succ i := by omega
    rw [he]
  · intro i hi
    have hi' : i < (fetchGo oracle backoff (attempt + 1) r).tries := hi
    match i with
    | 0 =>
      refine ⟨by rw [Nat.add_zero, ho]; exact hsr, ?_⟩
      intro xml hx
      rw [Nat.add_zero, ho] at hx
      exact hnos xml hx
    | j + 1 =>
      have hj : j < (fetchGo oracle backoff (attempt + 1) r).tries - 1 := by
        omega
      have h := h4 j hj
      have he : attempt + (j + 1) = attempt + 1 + j := by omega
      rw [he]
      exact h
  · intro o' h
    have h' := h5 o' h
    rw [h']
    have he : attempt + 1 + ((fetchGo oracle backoff (attempt + 1) r).tries - 1) =
        attempt + ((fetchGo oracle backoff (attempt + 1) r).tries + 1 - 1) := by
      omega
    rw [he]
  · intro xml h
    have h' := h6 xml h
    have he : attempt + ((fetchGo oracle backoff (attempt + 1) r).tries + 1 - 1) =
        attempt + 1 + ((fetchGo oracle backoff (attempt + 1) r).tries - 1) := by
      omega
    rw [he]
    exact h'

theorem fetchGo_spec (oracle : Nat → AttemptOutcome) (backoff : Int) :
    ∀ remaining attempt : Nat, FetchSpec oracle backoff attempt remaining := by
  intro remaining
  induction remaining with
  | zero =>
    intro attempt
    rcases ho : oracle attempt with xml | ⟨st, stx⟩ | _ | ⟨nm, ms⟩
    · unfold FetchSpec
      rw [fetchGo, ho]
      simp only []
      refine ⟨le_refl _, le_refl _, by simp, ?_, ?_, ?_⟩
      · intro i hi
        simp at hi
      · intro o' h
        simp at h
      · intro xml' h
        simp only [Except.ok.injEq] at h
        simp [ho, h]
    · exact fetchSpec_of_stop oracle backoff attempt 0 _ ho
        (by rw [fetchGo, ho]; simp only []; exact ite_self _)
    · exact fetchSpec_of_stop oracle backoff attempt 0 _ ho
        (by rw [fetchGo, ho]; simp only []; exact ite_self _)
    · exact fetchSpec_of_stop oracle backoff attempt 0 _ ho
        (by rw [fetchGo, ho]; simp only []; exact ite_self _)
  | succ r ih =>
    intro attempt
    rcases ho : oracle attempt with xml | ⟨st, stx⟩ | _ | ⟨nm, ms⟩
    · unfold FetchSpec
      rw [fetchGo, ho]
      simp only []
      refine ⟨by omega, le_refl _, by simp, ?_, ?_, ?_⟩
      · intro i hi
        simp at hi
      · intro o' h
        simp at h
      · intro xml' h
        simp only [Except.ok.injEq] at h
        simp [ho, h]
    · by_cases hsr : shouldRetry (.httpError st stx) = true
      · exact fetchSpec_retry oracle backoff attempt r (ih (attempt + 1)) _ ho hsr
          (by rw [fetchGo, ho]; simp only []; rw [if_pos hsr])
      · exact fetchSpec_of_stop oracle backoff attempt (r + 1) _ ho
          (by rw [fetchGo, ho]; simp only []; rw [if_neg hsr])
    · by_cases hsr : shouldRetry .abortError = true
      · exact fetchSpec_retry oracle backoff attempt r (ih (attempt + 1)) _ ho hsr
          (by rw [fetchGo, ho]; simp only []; rw [if_pos hsr])
      · exact fetchSpec_of_stop oracle backoff attempt (r + 1) _ ho
          (by rw [fetchGo, ho]; simp only []; rw [if_neg hsr])
    · by_cases hsr : shouldRetry (.otherError nm ms) = true
      · exact fetchSpec_retry oracle backoff attempt r (ih (attempt + 1)) _ ho hsr
          (by rw [fetchGo, ho]; simp only []; rw [if_pos hsr])
      · exact fetchSpec_of_stop oracle backoff attempt (r + 1) _ ho
          (by rw [fetchGo, ho]; simp only []; rw [if_neg hsr])

/-- Claim C5 (amended): for every sequence of attempt outcomes,
`fetchDbpiaXml` makes at most `maxRetries + 1` attempts (and `maxRetries`
defaults to 2, so at most 3 total tries); every non-final attempt failed
with a retryable error — an `AbortError` (timeout/cancel) or an error whose
message contains `"HTTP Error: 5"` (HTTP 5xx, detected by a substring test,
so a non-5xx response whose status text happens to contain that string is
also retried) — and each retry waits `retryBackoffMs * 2^attempt`; the
final attempt's outcome is what the call returns, so exhausting retries
re-raises the last observed error, and a first failure that is not
retryable (a typical HTTP 4xx included) propagates immediately: one try,
no backoff sleep. -/
theorem c5_retry_policy (oracle : Nat → AttemptOutcome) (maxRetries : Nat)
    (backoff : Int) :
    defaultMaxRetries = 2 ∧
    (fetchDbpiaXml oracle maxRetries backoff).tries ≤ maxRetries + 1 ∧
    1 ≤ (fetchDbpiaXml oracle maxRetries backoff).tries ∧
    (fetchDbpiaXml oracle maxRetries backoff).sleeps =
      (List.range ((fetchDbpiaXml oracle maxRetries backoff).tries - 1)).map
        (fun i => backoff * 2 ^ i) ∧
    (∀ i, i < (fetchDbpiaXml oracle maxRetries backoff).tries - 1 →
      shouldRetry (oracle i) = true ∧ ∀ xml, oracle i ≠ .success xml) ∧
    (∀ o, (fetchDbpiaXml oracle maxRetries backoff).result = .error o →
      o = oracle ((fetchDbpiaXml oracle maxRetries backoff).tries - 1)) ∧
    (∀ xml, (fetchDbpiaXml oracle maxRetries backoff).result = .ok xml →
      oracle ((fetchDbpiaXml oracle maxRetries backoff).tries - 1) =
        .success xml) ∧
    (shouldRetry (oracle 0) = false → (∀ xml, oracle 0 ≠ .success xml) →
      fetchDbpiaXml oracle maxRetries backoff = ⟨.error (oracle 0), 1, []⟩) := by
  have h := fetchGo_spec oracle backoff maxRetries 0
  unfold FetchSpec at h
  simp only [Nat.zero_add] at h
  obtain ⟨h1, h2, h3, h4, h5, h6⟩ := h
  refine ⟨rfl, h1, h2, h3, h4, h5, h6, ?_⟩
  intro hnr hnos
  have htr : (fetchGo oracle backoff 0 maxRetries).tries = 1 := by
    rcases Nat.lt_or_ge 1 (fetchGo oracle backoff 0 maxRetries).tries with hgt | hle
    · have hr0 := (h4 0 (by omega)).1
      exact absurd (hnr.symm.trans hr0) (fun hh => Bool.noConfusion hh)
    · omega
  rcases hres : (fetchGo oracle backoff 0 maxRetries).result with o | xml
  · have ho := h5 o hres
    rw [htr] at ho
    have hsl : (fetchGo oracle backoff 0 maxRetries).sleeps = [] := by
      rw [h3, htr]
      rfl
    have heta : fetchDbpiaXml oracle maxRetries backoff =
        ⟨(fetchGo oracle backoff 0 maxRetries).result,
         (fetchGo oracle backoff 0 maxRetries).tries,
         (fetchGo oracle backoff 0 maxRetries).sleeps⟩ := rfl
    rw [heta, hres, htr, hsl, ho]
  · have hok := h6 xml hres
    rw [htr] at hok
    exact absurd hok (hnos xml)

/-- Claim C5, counterexample: an HTTP 404 — a 4xx — whose status text
contains `"HTTP Error: 5"` is retried twice (three tries, two backoff
sleeps) instead of propagating immediately, because 5xx detection is a
substring test on the error message. -/
theorem c5_retry_policy_cex :
    fetchDbpiaXml (fun _ => .httpError 404 "HTTP Error: 500 spoof") 2 1000 =
      ⟨.error (.httpError 404 "HTTP Error: 500 spoof"), 3, [1000, 2000]⟩ := by
  decide

/-- Claim C5, witness: a 500-then-success oracle waits one base backoff and
succeeds on the second try; a plain 401 is never retried and propagates at
once. -/
theorem c5_retry_policy_witness :
    (fetchDbpiaXml
      (fun i => if i = 0 then .httpError 500 "Internal Server Error"
                else .success "ok") 2 1000).tries ≤ 3 ∧
    shouldRetry ((fun i => if i = 0 then
        AttemptOutcome.httpError 500 "Internal Server Error"
      else .success "ok") 0) = true ∧
    fetchDbpiaXml (fun _ => .httpError 401 "Unauthorized") 2 1000 =
      ⟨.error (.httpError 401 "Unauthorized"), 1, []⟩ := by
  refine ⟨(c5_retry_policy
      (fun i => if i = 0 then .httpError 500 "Internal Server Error"
                else .success "ok") 2 1000).2.1, ?_, ?_⟩
  · exact ((c5_retry_policy
      (fun i => if i = 0 then .httpError 500 "Internal Server Error"
                else .success "ok") 2 1000).2.2.2.2.1 0 (by decide)).1
  · exact (c5_retry_policy (fun _ => .httpError 401 "Unauthorized") 2
      1000).2.2.2.2.2.2.2 (by decide) (fun xml h => by cases h)

end Dbpia
